import Mathlib

/-!
# DuraStash core: shallow embedding and verification

This file embeds the DuraStash core (group coordinator, batch manager,
session manager, storage interface) in Lean and settles the frozen claims
about it.

Modelling conventions, all documented at the definition they concern:

* Machine integers (`int64_t`, `size_t`) are modelled as `Nat`; every value
  that occurs (sequence numbers, timestamps, counters) is non-negative and
  far from 2^63, so no wraparound is reachable in the modelled traces.
* ULID strings are modelled as `Nat` drawn from a fresh-id supply
  (`GSState.nextUlid`): `ULID::Generate` returns time-ordered, pairwise
  distinct 26-character strings whose lexicographic order for ids generated
  in distinct milliseconds is generation order, which the supply reproduces.
* `ULID::Now()` (wall-clock milliseconds) is modelled by a logical clock
  `GSState.clock` that advances on every call, so distinct calls yield
  distinct, increasing timestamps.
* Keys `G:S:state`, `G:S:batch:b`, `G:S:b:<20-digit q>` are modelled by the
  structured type `Key`.  This is faithful because group keys must not
  contain `:` (spec section 6), session and batch ids are ULIDs (fixed
  26 characters over an alphabet without `:`, never equal to the literal
  `batch`), and the 20-digit zero padding makes the numeric order of
  sequences equal the lexicographic order of their renderings.
* Values are modelled by the sum `Val`; a `.corrupt` value stands for any
  stored byte string that the JSON layer fails to parse back into the
  record type the key demands.  The jsonable serializer itself is not part
  of the sources; following the `try/catch` blocks around `fromJson` in
  `batch_manager.cpp`, parsing a value of the wrong shape is modelled as
  throwing.
* RocksDB never fails a `Put`/`Delete`/`Get`-on-present-key in the modelled
  traces, so storage writes always succeed.  `BeginBatch` keeps its failure
  case (it fails when a write batch is already open): that branch is
  load-bearing for the behavior of `ResaveBatch`.
* Mutexes are erased: every public operation runs to completion before the
  next starts, which is exactly the serialization the coordinator mutex
  enforces.
* The heartbeat thread only rewrites `last_heartbeat` of the current session
  record; no claim mentions it, and it is not modelled.
-/

namespace DuraStash

/-- Batch lifecycle states, from `include/durastash/types.h`. -/
inductive BatchStatus
  | pending
  | loaded
  | acknowledged
deriving DecidableEq, Repr

/-- Session lifecycle states, from `include/durastash/types.h`. -/
inductive SessionStatus
  | active
  | terminated
deriving DecidableEq, Repr

/-- Batch metadata record, from `include/durastash/types.h` (`BatchMetadata`). -/
structure BatchMetadata where
  batchId : Nat
  sequenceStart : Nat
  sequenceEnd : Nat
  status : BatchStatus
  createdAt : Nat
  loadedAt : Nat
deriving DecidableEq, Repr

/-- Session state record, from `include/durastash/types.h` (`SessionState`).
`processId` is the OS pid, a constant within one process; modelled as 0. -/
structure SessionState where
  sessionId : Nat
  processId : Nat
  startedAt : Nat
  lastHeartbeat : Nat
  status : SessionStatus
deriving DecidableEq, Repr

/-- Storage keys.  `sessionStateKey g s` is `G:S:state`, `batchMetadataKey
g s b` is `G:S:batch:b`, `dataKey g s b q` is `G:S:b:<20-digit q>`
(`BatchManager::MakeBatchMetadataKey`, `MakeDataKey`,
`SessionManager::MakeSessionStateKey`). -/
inductive Key
  | sessionStateKey (g : String) (s : Nat)
  | batchMetadataKey (g : String) (s : Nat) (b : Nat)
  | dataKey (g : String) (s : Nat) (b : Nat) (q : Nat)
deriving DecidableEq, Repr

/-- Stored values: a session record, a batch metadata record, raw payload
bytes, or a byte string that fails to parse as the record its key demands. -/
inductive Val
  | sess (s : SessionState)
  | meta (m : BatchMetadata)
  | payload (d : String)
  | corrupt
deriving DecidableEq, Repr

/-- The raw bytes a `Get` hands back.  Payload records are the user bytes;
the JSON text of metadata records is irrelevant to every claim and modelled
by a placeholder. -/
def Val.bytes : Val → String
  | .payload d => d
  | _ => ""

/-- One operation queued in the RocksDB write batch
(`rocksdb::WriteBatch`). -/
inductive WOp
  | put (k : Key) (v : Val)
  | del (k : Key)
deriving DecidableEq, Repr

/-- Instrumentation: the storage-level mutating calls an operation performs,
in order.  `putE`/`delE` are direct (non-batched) writes; the rest are the
write-batch calls. -/
inductive Ev
  | putE (k : Key) (v : Val)
  | delE (k : Key)
  | beginBatchE
  | putToBatchE (k : Key) (v : Val)
  | delFromBatchE (k : Key)
  | commitBatchE
deriving DecidableEq, Repr

/-- Association-list lookup (first match). -/
def assocFind [DecidableEq α] : List (α × β) → α → Option β
  | [], _ => none
  | (a, b) :: t, x => if a = x then some b else assocFind t x

/-- Association-list upsert: replace in place, or append. -/
def assocSet [DecidableEq α] : List (α × β) → α → β → List (α × β)
  | [], x, y => [(x, y)]
  | (a, b) :: t, x, y => if a = x then (x, y) :: t else (a, b) :: assocSet t x y

/-- Association-list erase (first match). -/
def assocErase [DecidableEq α] : List (α × β) → α → List (α × β)
  | [], _ => []
  | (a, b) :: t, x => if a = x then t else (a, b) :: assocErase t x

@[simp] theorem assocFind_nil [DecidableEq α] (x : α) :
    assocFind ([] : List (α × β)) x = none := rfl

@[simp] theorem assocFind_cons [DecidableEq α] (a : α) (b : β) (t : List (α × β)) (x : α) :
    assocFind ((a, b) :: t) x = if a = x then some b else assocFind t x := rfl

@[simp] theorem assocSet_nil [DecidableEq α] (x : α) (y : β) :
    assocSet ([] : List (α × β)) x y = [(x, y)] := rfl

@[simp] theorem assocSet_cons [DecidableEq α] (a : α) (b : β) (t : List (α × β)) (x : α) (y : β) :
    assocSet ((a, b) :: t) x y =
      if a = x then (x, y) :: t else (a, b) :: assocSet t x y := rfl

@[simp] theorem assocErase_nil [DecidableEq α] (x : α) :
    assocErase ([] : List (α × β)) x = [] := rfl

@[simp] theorem assocErase_cons [DecidableEq α] (a : α) (b : β) (t : List (α × β)) (x : α) :
    assocErase ((a, b) :: t) x = if a = x then t else (a, b) :: assocErase t x := rfl

theorem assocFind_assocSet [DecidableEq α] (l : List (α × β)) (x : α) (y : β) (z : α) :
    assocFind (assocSet l x y) z = if x = z then some y else assocFind l z := by
  induction l with
  | nil => simp [assocSet, assocFind]
  | cons hd t ih =>
    obtain ⟨a, b⟩ := hd
    simp only [assocSet_cons]
    by_cases hax : a = x
    · subst hax
      simp only [if_pos rfl, assocFind_cons]
      by_cases haz : a = z <;> simp [haz]
    · simp only [if_neg hax, assocFind_cons]
      by_cases haz : a = z
      · subst haz
        rw [if_pos rfl, if_neg (fun h => hax h.symm), if_pos rfl]
      · rw [if_neg haz, if_neg haz, ih]

theorem assocFind_eq_none [DecidableEq α] (l : List (α × β)) (x : α)
    (hx : x ∉ l.map Prod.fst) : assocFind l x = none := by
  induction l with
  | nil => rfl
  | cons hd t ih =>
    obtain ⟨a, b⟩ := hd
    simp only [List.map_cons, List.mem_cons] at hx
    push_neg at hx
    simp only [assocFind_cons]
    rw [if_neg (fun h => hx.1 h.symm), ih hx.2]

theorem assocFind_assocErase [DecidableEq α] (l : List (α × β))
    (hnd : (l.map Prod.fst).Nodup) (x z : α) :
    assocFind (assocErase l x) z = if x = z then none else assocFind l z := by
  induction l with
  | nil => simp
  | cons hd t ih =>
    obtain ⟨a, b⟩ := hd
    simp only [List.map_cons, List.nodup_cons] at hnd
    simp only [assocErase_cons]
    by_cases hax : a = x
    · subst hax
      rw [if_pos rfl]
      by_cases haz : a = z
      · subst haz
        rw [if_pos rfl, assocFind_eq_none t a hnd.1]
      · rw [if_neg haz, assocFind_cons, if_neg haz]
    · simp only [if_neg hax, assocFind_cons]
      by_cases haz : a = z
      · subst haz
        rw [if_pos rfl, if_neg (fun h => hax h.symm), if_pos rfl]
      · rw [if_neg haz, if_neg haz, ih hnd.2]

/-- The whole modelled state: the store and write batch of the single
`IStorage` handle (`rocksdb_storage.cpp`), the `SessionManager` members,
the `GroupStorage` members (`group_storage.h` lines 118-128), the fresh-id
supply standing for `ULID::Generate`, and the logical clock standing for
`ULID::Now`.  `log` is instrumentation only: the mutating storage calls
performed so far. -/
structure GSState where
  store : List (Key × Val)
  wbatch : Option (List WOp)
  log : List Ev
  smSession : Option Nat
  smGroup : String
  groupSessions : List (String × Nat)
  groupSeqCounters : List (String × Nat)
  groupCurrentBatchIds : List ((String × Nat) × Nat)
  defaultBatchSize : Nat
  nextUlid : Nat
  clock : Nat
deriving DecidableEq, Repr

/-- The state of a freshly constructed, initialized `GroupStorage` with the
default batch size 100 (`GroupStorage::GroupStorage`). -/
def initState : GSState :=
  ⟨[], none, [], none, "", [], [], [], 100, 0, 0⟩

/-- `RocksDBStorage::Put` (always succeeds in the modelled traces). -/
def sPut (k : Key) (v : Val) (st : GSState) : GSState :=
  { st with store := assocSet st.store k v, log := st.log ++ [.putE k v] }

/-- `RocksDBStorage::Get`: `some v` when the key is present. -/
def sGet (k : Key) (st : GSState) : Option Val :=
  assocFind st.store k

/-- `RocksDBStorage::BeginBatch`: fails iff a write batch is already open. -/
def sBeginBatch (st : GSState) : Bool × GSState :=
  match st.wbatch with
  | some _ => (false, st)
  | none => (true, { st with wbatch := some [], log := st.log ++ [.beginBatchE] })

/-- `RocksDBStorage::PutToBatch`: silently does nothing when no batch is
open. -/
def sPutToBatch (k : Key) (v : Val) (st : GSState) : GSState :=
  match st.wbatch with
  | none => st
  | some ops =>
    { st with wbatch := some (ops ++ [.put k v]), log := st.log ++ [.putToBatchE k v] }

/-- `RocksDBStorage::DeleteFromBatch`: silently does nothing when no batch
is open. -/
def sDeleteFromBatch (k : Key) (st : GSState) : GSState :=
  match st.wbatch with
  | none => st
  | some ops =>
    { st with wbatch := some (ops ++ [.del k]), log := st.log ++ [.delFromBatchE k] }

/-- Apply the queued write-batch operations in order
(`rocksdb::DB::Write`). -/
def applyWOps : List WOp → List (Key × Val) → List (Key × Val)
  | [], s => s
  | .put k v :: t, s => applyWOps t (assocSet s k v)
  | .del k :: t, s => applyWOps t (assocErase s k)

/-- `RocksDBStorage::CommitBatch`: all-or-nothing application of the queued
operations; fails iff no batch is open. -/
def sCommitBatch (st : GSState) : Bool × GSState :=
  match st.wbatch with
  | none => (false, st)
  | some ops =>
    (true, { st with store := applyWOps ops st.store, wbatch := none,
                     log := st.log ++ [.commitBatchE] })

/-- `ULID::Generate`: a fresh time-ordered identifier. -/
def ulidGenerate (st : GSState) : Nat × GSState :=
  (st.nextUlid, { st with nextUlid := st.nextUlid + 1 })

/-- `ULID::Now`: the current millisecond timestamp. -/
def ulidNow (st : GSState) : Nat × GSState :=
  (st.clock, { st with clock := st.clock + 1 })

/-- Errors thrown by the batch manager (`include/durastash/errors.h`):
`BatchNotFoundException` and `CorruptedBatchException` are distinct
exception classes. -/
inductive DSErr
  | batchNotFound (b : Nat)
  | corruptedBatch (b : Nat)
deriving DecidableEq, Repr

/-- `BatchMetadata::fromJson`: parsing a stored value back into a
`BatchMetadata`; anything that is not a batch metadata record throws. -/
def parseMeta (b : Nat) : Val → Except DSErr BatchMetadata
  | .meta m => .ok m
  | _ => .error (.corruptedBatch b)

/-- `BatchManager::MakeDataKey` (structured-key form). -/
def MakeDataKey (g : String) (s b q : Nat) : Key :=
  .dataKey g s b q

/-- `BatchManager::GenerateDataKeys`: one data key per sequence in
`[qs, qe]`, ascending. -/
def GenerateDataKeys (g : String) (s b qs qe : Nat) : List Key :=
  (List.range' qs (qe + 1 - qs)).map (MakeDataKey g s b)

/-- `BatchManager::CreateBatch`: allocate a fresh id, write a PENDING
metadata record with `created_at = now`, `loaded_at = 0`.  The returned id
is never empty because the storage put succeeds in the model. -/
def CreateBatch (g : String) (s qs qe : Nat) (st : GSState) : Nat × GSState :=
  let p1 := ulidGenerate st
  let p2 := ulidNow p1.2
  let m : BatchMetadata := ⟨p1.1, qs, qe, .pending, p2.1, 0⟩
  (p1.1, sPut (.batchMetadataKey g s p1.1) (.meta m) p2.2)

/-- `BatchManager::GetBatchMetadata`: point lookup plus parse; a missing
key is `none`, a parse failure throws (there is no `try` around `fromJson`
there). -/
def GetBatchMetadata (g : String) (s b : Nat) (st : GSState) :
    Except DSErr (Option BatchMetadata) :=
  match sGet (.batchMetadataKey g s b) st with
  | none => .ok none
  | some v => (parseMeta b v).map some

/-- `BatchManager::MarkBatchAsLoaded`: throws `BatchNotFoundException` when
the record is missing, `CorruptedBatchException` when it fails to parse,
returns `false` without writing when the status is already LOADED, and
otherwise flips the status to LOADED, stamps `loaded_at = now` and writes
the record back. -/
def MarkBatchAsLoaded (g : String) (s b : Nat) (st : GSState) :
    Except DSErr (Bool × GSState) :=
  match sGet (.batchMetadataKey g s b) st with
  | none => .error (.batchNotFound b)
  | some (.meta m) =>
    if m.status = .loaded then .ok (false, st)
    else
      let p := ulidNow st
      .ok (true, sPut (.batchMetadataKey g s b)
        (.meta { m with status := .loaded, loadedAt := p.1 }) p.2)
  | some _ => .error (.corruptedBatch b)

/-- `BatchManager::AcknowledgeBatch`: read the metadata (missing or corrupt
gives `false`; the parse is wrapped in `try/catch` here), open the write
batch, queue deletion of the metadata key and of every data key in the
batch's range, and commit. -/
def bmAcknowledgeBatch (g : String) (s b : Nat) (st : GSState) : Bool × GSState :=
  match sGet (.batchMetadataKey g s b) st with
  | none => (false, st)
  | some (.meta m) =>
    let p := sBeginBatch st
    if p.1 then
      let st2 := sDeleteFromBatch (.batchMetadataKey g s b) p.2
      let st3 := (GenerateDataKeys g s b m.sequenceStart m.sequenceEnd).foldl
        (fun acc k => sDeleteFromBatch k acc) st2
      sCommitBatch st3
    else (false, p.2)
  | some _ => (false, st)

/-- The scan `ScanPrefix(G ":" S ":batch:")`: all batch metadata entries of
the session, in key order.  Batch ids are fixed-length ULIDs, so key order
under the prefix is id order. -/
def scanBatchMetas (g : String) (s : Nat) (st : GSState) : List (Nat × Val) :=
  List.insertionSort (fun a b => a.1 ≤ b.1)
    (st.store.filterMap fun kv =>
      match kv.1 with
      | .batchMetadataKey g2 s2 b =>
        if g2 = g ∧ s2 = s then some (b, kv.2) else none
      | _ => none)

/-- The filtering loop of `BatchManager::GetLoadableBatches`: parse each
scanned value in key order (`fromJson` is not wrapped there, so the first
corrupt record throws) and keep `(batch_id, sequence_start)` of the PENDING
ones. -/
def parsePendingList : List (Nat × Val) → Except DSErr (List (Nat × Nat))
  | [] => .ok []
  | (b, v) :: t =>
    match parseMeta b v with
    | .error e => .error e
    | .ok m =>
      match parsePendingList t with
      | .error e => .error e
      | .ok r => .ok (if m.status = .pending then (m.batchId, m.sequenceStart) :: r else r)

/-- `BatchManager::GetLoadableBatches`: scan the session's batch records,
keep the PENDING ones, sort by `sequence_start` ascending, return the first
`n` batch ids. -/
def GetLoadableBatches (g : String) (s n : Nat) (st : GSState) :
    Except DSErr (List Nat) :=
  match parsePendingList (scanBatchMetas g s st) with
  | .error e => .error e
  | .ok pend =>
    .ok (((List.insertionSort (fun a b => a.2 ≤ b.2) pend).take n).map Prod.fst)

/-- `SessionManager::InitializeSession`: generate a fresh session id,
remember it (and the group) in the manager, and write an ACTIVE session
record with `started_at` and `last_heartbeat` stamped by two `Now()` calls.
The manager holds exactly one current session, whatever the group. -/
def smInitializeSession (g : String) (st : GSState) : Bool × GSState :=
  let p1 := ulidGenerate st
  let st2 := { p1.2 with smSession := some p1.1, smGroup := g }
  let p2 := ulidNow st2
  let p3 := ulidNow p2.2
  let srec : SessionState := ⟨p1.1, 0, p2.1, p3.1, .active⟩
  (true, sPut (.sessionStateKey g p1.1) (.sess srec) p3.2)

/-- `SessionManager::TerminateSession`: if a current session is held, read
the record at `(g, current)`, flip it to TERMINATED when found, and clear
the in-memory identity either way.  A record that fails to parse is left
unchanged. -/
def smTerminateSession (g : String) (st : GSState) : GSState :=
  match st.smSession with
  | none => st
  | some sid =>
    let st2 :=
      match sGet (.sessionStateKey g sid) st with
      | some (.sess s0) =>
        let p := ulidNow st
        sPut (.sessionStateKey g sid)
          (.sess { s0 with status := .terminated, lastHeartbeat := p.1 }) p.2
      | _ => st
    { st2 with smSession := none, smGroup := "" }

/-- `GroupStorage::InitializeSession`: run the session manager's
initialization, record the new session id in `group_sessions_`, and start
the heartbeat thread (not modelled; it only rewrites `last_heartbeat`). -/
def InitializeSession (g : String) (st : GSState) : Bool × GSState :=
  let p := smInitializeSession g st
  if p.1 then
    let sid := p.2.smSession.getD 0
    (true, { p.2 with groupSessions := assocSet p.2.groupSessions g sid })
  else (false, p.2)

/-- `GroupStorage::TerminateSession`: terminate via the session manager and
erase the group from `group_sessions_` and `group_sequence_counters_`
(`group_current_batch_ids_` is not cleared by the source). -/
def TerminateSession (g : String) (st : GSState) : GSState :=
  let st1 := smTerminateSession g st
  { st1 with groupSessions := assocErase st1.groupSessions g,
             groupSeqCounters := assocErase st1.groupSeqCounters g }

/-- `GroupStorage::GetNextSequenceId`: 0 on the first call for a group,
previous value plus one afterwards. -/
def GetNextSequenceId (g : String) (st : GSState) : Nat × GSState :=
  match assocFind st.groupSeqCounters g with
  | none => (0, { st with groupSeqCounters := assocSet st.groupSeqCounters g 0 })
  | some v => (v + 1, { st with groupSeqCounters := assocSet st.groupSeqCounters g (v + 1) })

/-- `GroupStorage::GetOrCreateSession`: the group's session if one is held,
otherwise initialize one (the mutexes this re-entrant call takes in the
source are erased by the model, like every lock). -/
def GetOrCreateSession (g : String) (st : GSState) : Option Nat × GSState :=
  match assocFind st.groupSessions g with
  | some sid => (some sid, st)
  | none =>
    let p := InitializeSession g st
    if p.1 then (assocFind p.2.groupSessions g, p.2) else (none, p.2)

/-- The tail of `GroupStorage::Save`: generate the data key for the single
sequence `q` and put the payload under it. -/
def saveFinish (g : String) (sid bid q : Nat) (d : String) (st : GSState) :
    Bool × GSState :=
  match GenerateDataKeys g sid bid q q with
  | [] => (false, st)
  | k :: _ => (true, sPut k (.payload d) st)

/-- The body of `GroupStorage::Save` once the session is resolved: allocate
the next sequence, compute the window `[⌊q/B⌋·B, ⌊q/B⌋·B + B - 1]`, create
a PENDING batch when `group_current_batch_ids_` has no entry for
`(g, window_start)`, then put the payload under its data key. -/
def saveWithSession (g : String) (sid : Nat) (d : String) (st : GSState) :
    Bool × GSState :=
  let p := GetNextSequenceId g st
  let q := p.1
  let st2 := p.2
  let B := st2.defaultBatchSize
  let bstart := q / B * B
  let bend := bstart + B - 1
  match assocFind st2.groupCurrentBatchIds (g, bstart) with
  | none =>
    let c := CreateBatch g sid bstart bend st2
    let st4 := { c.2 with
      groupCurrentBatchIds := assocSet c.2.groupCurrentBatchIds (g, bstart) c.1 }
    saveFinish g sid c.1 q d st4
  | some bid => saveFinish g sid bid q d st2

/-- `GroupStorage::Save`: look up or create the session, then run the save
body. -/
def Save (g : String) (d : String) (st : GSState) : Bool × GSState :=
  match GetOrCreateSession g st with
  | (none, st1) => (false, st1)
  | (some sid, st1) => saveWithSession g sid d st1

/-- `BatchLoadResult`, from `include/durastash/group_storage.h`. -/
structure BatchLoadResult where
  batchId : Nat
  data : List String
  sequenceStart : Nat
  sequenceEnd : Nat
deriving DecidableEq, Repr

/-- `GroupStorage::LoadBatchData`: re-read the batch metadata (a corrupt
record throws out of `GetBatchMetadata`; a missing one gives `none`, which
the caller skips), generate all data keys of its range, and collect the
values of the keys that are present, in key order; missing keys are
silently skipped. -/
def LoadBatchData (g : String) (sid b : Nat) (st : GSState) :
    Except DSErr (Option BatchLoadResult) :=
  match GetBatchMetadata g sid b st with
  | .error e => .error e
  | .ok none => .ok none
  | .ok (some m) =>
    let keys := GenerateDataKeys g sid b m.sequenceStart m.sequenceEnd
    let data := keys.filterMap (fun k => (sGet k st).map Val.bytes)
    .ok (some ⟨b, data, m.sequenceStart, m.sequenceEnd⟩)

/-- The per-batch loop of `GroupStorage::LoadBatch`: mark each candidate
LOADED (skip it when the mark reports it was already LOADED), load its
data, and append the result.  An exception from the mark or the re-read
propagates, discarding the results accumulated so far but keeping the
mutations already performed. -/
def loadLoop (g : String) (sid : Nat) :
    List Nat → List BatchLoadResult → GSState →
    Except DSErr (List BatchLoadResult) × GSState
  | [], acc, st => (.ok acc, st)
  | b :: rest, acc, st =>
    match MarkBatchAsLoaded g sid b st with
    | .error e => (.error e, st)
    | .ok (false, st1) => loadLoop g sid rest acc st1
    | .ok (true, st1) =>
      match LoadBatchData g sid b st1 with
      | .error e => (.error e, st1)
      | .ok none => loadLoop g sid rest acc st1
      | .ok (some r) => loadLoop g sid rest (acc ++ [r]) st1

/-- `GroupStorage::LoadBatch`: empty when the group has no session in
`group_sessions_`; otherwise fetch up to `n` loadable batch ids and run the
load loop. -/
def LoadBatch (g : String) (n : Nat) (st : GSState) :
    Except DSErr (List BatchLoadResult) × GSState :=
  match assocFind st.groupSessions g with
  | none => (.ok [], st)
  | some sid =>
    match GetLoadableBatches g sid n st with
    | .error e => (.error e, st)
    | .ok bids =>
      if bids.length = 0 then (.ok [], st)
      else loadLoop g sid bids [] st

/-- `GroupStorage::AcknowledgeBatch`: `false` when the group has no session
in `group_sessions_`; otherwise forward to the batch manager. -/
def AcknowledgeBatch (g : String) (b : Nat) (st : GSState) : Bool × GSState :=
  match assocFind st.groupSessions g with
  | none => (false, st)
  | some sid => bmAcknowledgeBatch g sid b st

/-- The write-batch payload loop of `GroupStorage::ResaveBatch`: put each
new data key with the corresponding remaining payload (the source iterates
`i < remaining.size() && i < new_data_keys.size()`, which is a zip). -/
def putPairs : List (Key × String) → GSState → GSState
  | [], st => st
  | (k, d) :: t, st => putPairs t (sPutToBatch k (.payload d) st)

/-- `GroupStorage::ResaveBatch`: requires a session and a LOADED original
batch.  With empty `remaining` it just acknowledges the original.
Otherwise it allocates `new_start = GetNextSequenceId(g)` (one single
increment of the counter), creates a new PENDING batch over
`[new_start, new_start + |remaining| - 1]` with a direct metadata put,
opens the write batch, queues the new payload puts, calls the batch
manager's acknowledge for the original batch (whose own `BeginBatch` then
fails, so it returns `false`, which the source ignores), and commits. -/
def ResaveBatch (g : String) (b : Nat) (remaining : List String) (st : GSState) :
    Except DSErr (Bool × GSState) :=
  match assocFind st.groupSessions g with
  | none => .ok (false, st)
  | some sid =>
    match GetBatchMetadata g sid b st with
    | .error e => .error e
    | .ok none => .ok (false, st)
    | .ok (some m) =>
      if m.status ≠ .loaded then .ok (false, st)
      else if remaining.isEmpty then .ok (bmAcknowledgeBatch g sid b st)
      else
        let p := GetNextSequenceId g st
        let ns := p.1
        let ne := ns + remaining.length - 1
        let c := CreateBatch g sid ns ne p.2
        let q := sBeginBatch c.2
        if q.1 then
          let keys := GenerateDataKeys g sid c.1 ns ne
          let st4 := putPairs (keys.zip remaining) q.2
          let a := bmAcknowledgeBatch g sid b st4
          .ok (sCommitBatch a.2)
        else .ok (false, q.2)

/-- `GroupStorage::SetBatchSize`. -/
def SetBatchSize (n : Nat) (st : GSState) : GSState :=
  { st with defaultBatchSize := n }

/-- `GroupStorage::Shutdown`: terminate the session of every group in
`group_sessions_` through the session manager, stop the heartbeat thread,
shut the storage down (rolling back any open write batch), and clear
`group_sessions_` and `group_sequence_counters_`. -/
def Shutdown (st : GSState) : GSState :=
  let st1 := st.groupSessions.foldl (fun acc p => smTerminateSession p.1 acc) st
  { st1 with wbatch := none, groupSessions := [], groupSeqCounters := [] }

/-- The public operations of the coordinator that run within sessions
(`GroupStorage`'s public surface; `Initialize`/`Shutdown` wrap storage
open/close and are modelled separately by `Shutdown`). -/
inductive Op
  | initializeSession (g : String)
  | terminateSession (g : String)
  | save (g : String) (d : String)
  | loadBatch (g : String) (n : Nat)
  | acknowledgeBatch (g : String) (b : Nat)
  | resaveBatch (g : String) (b : Nat) (remaining : List String)
  | setBatchSize (n : Nat)
deriving DecidableEq, Repr

/-- What one public operation hands back to its caller. -/
inductive Out
  | unit
  | bool (r : Bool)
  | loaded (results : List BatchLoadResult)
  | threw (e : DSErr)
deriving DecidableEq, Repr

/-- Run one public operation. -/
def step (st : GSState) (op : Op) : GSState × Out :=
  match op with
  | .initializeSession g =>
    let p := InitializeSession g st
    (p.2, .bool p.1)
  | .terminateSession g => (TerminateSession g st, .unit)
  | .save g d =>
    let p := Save g d st
    (p.2, .bool p.1)
  | .loadBatch g n =>
    match LoadBatch g n st with
    | (.ok rs, st1) => (st1, .loaded rs)
    | (.error e, st1) => (st1, .threw e)
  | .acknowledgeBatch g b =>
    let p := AcknowledgeBatch g b st
    (p.2, .bool p.1)
  | .resaveBatch g b r =>
    match ResaveBatch g b r st with
    | .ok p => (p.2, .bool p.1)
    | .error e => (st, .threw e)
  | .setBatchSize n => (SetBatchSize n st, .unit)

/-- Run a list of operations from a state. -/
def runFrom (st : GSState) : List Op → GSState
  | [] => st
  | op :: t => runFrom (step st op).1 t

/-- The state after the first `n` operations of a trace, starting from the
initial state. -/
def stateAt (ops : List Op) (n : Nat) : GSState :=
  runFrom initState (ops.take n)

/-- The state after a whole trace. -/
def runTrace (ops : List Op) : GSState :=
  runFrom initState ops

/-- The value returned by the `n`-th operation of a trace (`.unit` past the
end). -/
def outAt (ops : List Op) (n : Nat) : Out :=
  match ops.drop n with
  | [] => .unit
  | op :: _ => (step (stateAt ops n) op).2

/-- The batch ids delivered to the caller by an operation's return value:
the ids of the `BatchLoadResult`s of a completed `LoadBatch`, nothing for
anything else (a thrown `LoadBatch` delivers nothing). -/
def deliveredIds : Out → List Nat
  | .loaded rs => rs.map BatchLoadResult.batchId
  | _ => []

/-- Data-key order for one session prefix: keys `G:S:b:<20-digit q>` with
`b` a fixed-length ULID sort by batch id first, then sequence. -/
def dataKeyOrder (x y : (Nat × Nat) × String) : Prop :=
  x.1.1 < y.1.1 ∨ (x.1.1 = y.1.1 ∧ x.1.2 ≤ y.1.2)

instance decDataKeyOrder : DecidableRel dataKeyOrder := fun x y =>
  decidable_of_iff (x.1.1 < y.1.1 ∨ (x.1.1 = y.1.1 ∧ x.1.2 ≤ y.1.2)) Iff.rfl

/-- The data-key entries of a group's session: `((b, q), payload)` for every
payload record under `(g, s)`, in key order. -/
def sessionDataEntries (g : String) (s : Nat) (st : GSState) :
    List ((Nat × Nat) × String) :=
  List.insertionSort dataKeyOrder
    (st.store.filterMap fun kv =>
      match kv with
      | (.dataKey g2 s2 b q, .payload d) =>
        if g2 = g ∧ s2 = s then some ((b, q), d) else none
      | _ => none)

/-- Modelled from the spec: `GroupStorage::Load` — the peek operation that
`tests/test_group_storage.cpp` calls — is absent from the sources under
`src/`; only its callers exist.  Spec section 4.4 defines `peek_load(G)` as
a prefix scan of all data keys under the group's session, returned in key
order, performing no state changes and not consulting batch status.  With
no session held for the group there are no data keys under it to scan. -/
def PeekLoad (g : String) (st : GSState) : List String :=
  match assocFind st.groupSessions g with
  | none => []
  | some sid => (sessionDataEntries g sid st).map Prod.snd

/-- The sequence numbers of the payloads `PeekLoad` returns, in return
order. -/
def peekSeqList (g : String) (st : GSState) : List Nat :=
  match assocFind st.groupSessions g with
  | none => []
  | some sid => (sessionDataEntries g sid st).map (fun e => e.1.2)

/-- The number of batch metadata records in the store. -/
def numMetas (st : GSState) : Nat :=
  (st.store.filter fun kv =>
    match kv.1 with
    | .batchMetadataKey _ _ _ => true
    | _ => false).length

/-- The status of the batch metadata record at `(g, s, b)`, when one is
present and parses. -/
def metaStatusAt (st : GSState) (g : String) (s b : Nat) : Option BatchStatus :=
  match sGet (.batchMetadataKey g s b) st with
  | some (.meta m) => some m.status
  | _ => none

/-- The `[sequence_start, sequence_end]` window of the batch metadata
record at `(g, s, b)`, when one is present and parses. -/
def metaWindowAt (st : GSState) (g : String) (s b : Nat) : Option (Nat × Nat) :=
  match sGet (.batchMetadataKey g s b) st with
  | some (.meta m) => some (m.sequenceStart, m.sequenceEnd)
  | _ => none

/-- The status of the session state record at `(g, s)`, when one is present
and parses. -/
def sessionStatusAt (st : GSState) (g : String) (s : Nat) : Option SessionStatus :=
  match sGet (.sessionStateKey g s) st with
  | some (.sess r) => some r.status
  | _ => none

/-- Batch windows of a group's session are pairwise disjoint: any two batch
metadata records under `(g, s)` at distinct ids have non-overlapping
`[sequence_start, sequence_end]` ranges (spec section 3 invariant). -/
def WindowsDisjoint (st : GSState) (g : String) (s : Nat) : Prop :=
  ∀ b1 b2 w1 w2, b1 ≠ b2 →
    metaWindowAt st g s b1 = some w1 → metaWindowAt st g s b2 = some w2 →
    w1.2 < w2.1 ∨ w2.2 < w1.1

/-- Direct (non-batched) mutating storage calls. -/
def Ev.isDirectMutation : Ev → Bool
  | .putE _ _ => true
  | .delE _ => true
  | _ => false

/-- A direct put of a payload (data) key. -/
def Ev.isDataPut : Ev → Bool
  | .putE (.dataKey _ _ _ _) _ => true
  | _ => false

/-- A direct put of a batch metadata key. -/
def Ev.isMetaPut : Ev → Bool
  | .putE (.batchMetadataKey _ _ _) _ => true
  | _ => false

/-- The mutating storage calls an execution performed between two states of
one run (the log only ever grows). -/
def evDelta (st st2 : GSState) : List Ev :=
  st2.log.drop st.log.length

/-- The batch metadata record stored at `(g, s, b)`, raw. -/
def MetaAt (st : GSState) (g : String) (s b : Nat) : Option Val :=
  sGet (.batchMetadataKey g s b) st

/-- Well-formedness of one store entry: every key holds a value of the
shape the data model gives it (section 3), a batch metadata record's
`batch_id` field agrees with its key, and a record that failed to parse is
`corrupt`. -/
def entryWF : Key × Val → Bool
  | (.batchMetadataKey _ _ b, .meta m) => m.batchId = b
  | (.batchMetadataKey _ _ _, .corrupt) => true
  | (.batchMetadataKey _ _ _, _) => false
  | (.dataKey _ _ _ _, .payload _) => true
  | (.dataKey _ _ _ _, _) => false
  | (.sessionStateKey _ _, .sess _) => true
  | (.sessionStateKey _ _, .corrupt) => true
  | (.sessionStateKey _ _, _) => false

/-- Well-formed store: no duplicate keys, and every entry well-formed. -/
def StoreWF (l : List (Key × Val)) : Prop :=
  (l.map Prod.fst).Nodup ∧ ∀ kv ∈ l, entryWF kv = true

/-- The payload stored for sequence `q` of batch `b`, when present. -/
def payloadAt (st : GSState) (g : String) (sid b q : Nat) : Option String :=
  match sGet (.dataKey g sid b q) st with
  | some (.payload d) => some d
  | _ => none

/-- The payloads present in the store for the sequence range
`[qs, qe]` of batch `b`, in ascending sequence order, skipping missing
sequences. -/
def presentData (st : GSState) (g : String) (sid b qs qe : Nat) : List String :=
  (List.range' qs (qe + 1 - qs)).filterMap (payloadAt st g sid b)

/-- How the store evolves across the marking loop of `LoadBatch`: batch
metadata records are at most flipped to LOADED in place, nothing else moves
(data records, the open write batch, the id supply, the coordinator maps,
key distinctness). -/
structure MarkEvolve (st st2 : GSState) : Prop where
  meta : ∀ g s b, MetaAt st2 g s b = MetaAt st g s b ∨
    ∃ m t, MetaAt st g s b = some (.meta m) ∧
      MetaAt st2 g s b = some (.meta { m with status := .loaded, loadedAt := t })
  data : ∀ g s b q, sGet (.dataKey g s b q) st2 = sGet (.dataKey g s b q) st
  wb : st2.wbatch = st.wbatch
  ulid : st2.nextUlid = st.nextUlid
  nodup : (st.store.map Prod.fst).Nodup → (st2.store.map Prod.fst).Nodup

/-- The invariant that the at-most-once-load argument rests on, relative to
the set `R` of batch ids already delivered by completed `LoadBatch` calls:
no write batch is left open across public calls, the store is well-formed,
every batch id present in the store is older than the id supply, a batch id
determines its record's key, every delivered id is older than the supply,
and every record of a delivered id is LOADED. -/
structure TraceInv (R : List Nat) (st : GSState) : Prop where
  wb : st.wbatch = none
  wf : StoreWF st.store
  fresh : ∀ g s b, (MetaAt st g s b).isSome = true → b < st.nextUlid
  uniq : ∀ g s g2 s2 b, (MetaAt st g s b).isSome = true →
    (MetaAt st g2 s2 b).isSome = true → g = g2 ∧ s = s2
  rlt : ∀ b ∈ R, b < st.nextUlid
  rloaded : ∀ b ∈ R, ∀ g s m, MetaAt st g s b = some (.meta m) → m.status = .loaded

/-- All batch ids delivered by the first `n` operations of a trace. -/
def allDelivered (ops : List Op) (n : Nat) : List Nat :=
  (List.range n).flatMap (fun i => deliveredIds (outAt ops i))

/-- The `i`-th operation of the trace created a new batch metadata
record. -/
def CreatesNewBatch (ops : List Op) (i : Nat) : Prop :=
  numMetas (stateAt ops (i + 1)) = numMetas (stateAt ops i) + 1

/-- A trace that fixes the batch size once and then only saves into one
group. -/
def savesTrace (B : Nat) (g : String) (ds : List String) : List Op :=
  .setBatchSize B :: ds.map (.save g ·)

/-- Trace exhibiting the behavior of a successful multi-payload resave:
two saves fill `[0, 1]` of batch 1 (session id 0), the load flips batch 1
to LOADED, then `ResaveBatch` moves the remaining payload into a new
batch 2. -/
def resaveTrace : List Op :=
  [.initializeSession "g", .save "g" "a", .save "g" "b", .loadBatch "g" 100,
   .resaveBatch "g" 1 ["b"]]

/-- Two-group trace for `Shutdown`: sessions 0 (for `g1`) and 1 (for
`g2`). -/
def twoGroupsState : GSState :=
  runTrace [.initializeSession "g1", .initializeSession "g2"]

/-- Trace exhibiting overlapping batch windows: with batch size 2, batch 1
covers `[0, 1]`; the resave of batch 1 creates batch 2 over `[2, 3]` but
advances the group counter only to 2, so the following save allocates
sequence 3 and opens batch 3 over the same window `[2, 3]`. -/
def overlapTrace : List Op :=
  [.setBatchSize 2, .initializeSession "g", .save "g" "a", .save "g" "b",
   .loadBatch "g" 100, .resaveBatch "g" 1 ["x", "y"], .save "g" "c"]

/-- Trace for the window-boundary claim: five saves with batch size 5 (all
in batch 1 over `[0, 4]`), then the batch size drops to 3. -/
def shrinkTracePre : List Op :=
  [.setBatchSize 5, .save "g" "a0", .save "g" "a1", .save "g" "a2",
   .save "g" "a3", .save "g" "a4", .setBatchSize 3]

/-- `shrinkTracePre` followed by one more save, which allocates sequence 5
with batch size 3 in effect. -/
def shrinkTrace : List Op :=
  shrinkTracePre ++ [.save "g" "a5"]

/-- Trace for the peek-order counterexample: with batch size 3, sequences
0-2 fill batch 1 over `[0, 2]` and sequence 3 opens batch 2 over `[3, 5]`;
after the batch size grows to 10, sequence 4 computes window start 0 and
reuses batch 1, so its payload sits under the smaller batch id. -/
def peekTrace : List Op :=
  [.setBatchSize 3, .save "g" "a", .save "g" "b", .save "g" "c",
   .save "g" "d", .setBatchSize 10, .save "g" "e"]

/-- A state whose `LoadBatch` delivers batch 1 (for witnesses). -/
def oneBatchTrace : List Op :=
  [.initializeSession "g", .save "g" "a", .loadBatch "g" 1, .loadBatch "g" 1]

/-- Claim C1 (code bug, witnessed at the failing input `resaveTrace`):
`ResaveBatch` on LOADED batch 1 with remaining `["b"]` returns `true` and
creates the new PENDING batch 2 carrying `["b"]`, but the original batch's
metadata record and both of its payload keys are still present afterwards:
the acknowledge step runs while the resave's write batch is open, its inner
`BeginBatch` fails, and its deletions are silently skipped, so nothing of
the original batch is deleted, atomically or otherwise. -/
theorem C1_resave_leaves_original_batch :
    outAt resaveTrace 4 = .bool true ∧
    metaStatusAt (runTrace resaveTrace) "g" 0 1 = some .loaded ∧
    sGet (.dataKey "g" 0 1 0) (runTrace resaveTrace) = some (.payload "a") ∧
    sGet (.dataKey "g" 0 1 1) (runTrace resaveTrace) = some (.payload "b") ∧
    metaStatusAt (runTrace resaveTrace) "g" 0 2 = some .pending ∧
    metaWindowAt (runTrace resaveTrace) "g" 0 2 = some (2, 2) ∧
    sGet (.dataKey "g" 0 2 2) (runTrace resaveTrace) = some (.payload "b") := by
  decide

/-- Claim C7 (code bug, witnessed at the failing input `twoGroupsState`):
after initializing sessions for two groups and calling `Shutdown`, both
persisted session records still have status `active`.  The session manager
holds only the single most recent session id, so terminating `g1` looks up
the record under `g2`'s session id, finds nothing, and clears the held id;
terminating `g2` is then a no-op. -/
theorem C7_shutdown_leaves_sessions_active :
    sessionStatusAt (Shutdown twoGroupsState) "g1" 0 = some .active ∧
    sessionStatusAt (Shutdown twoGroupsState) "g2" 1 = some .active ∧
    (Shutdown twoGroupsState).groupSessions = [] := by
  decide

/-- Claim C8 (code bug, witnessed at the failing input `overlapTrace`):
after a resave of two payloads followed by one save, the session holds two
distinct PENDING batch records (ids 2 and 3) with the identical window
`[2, 3]`, so batch windows of the group's session are not pairwise
disjoint.  The resave advanced the group counter by one instead of by the
number of resaved payloads, so the next save re-allocates sequence 3. -/
theorem C8_windows_overlap :
    ¬ WindowsDisjoint (runTrace overlapTrace) "g" 0 := by
  intro h
  have h2 : metaWindowAt (runTrace overlapTrace) "g" 0 2 = some (2, 3) := by decide
  have h3 : metaWindowAt (runTrace overlapTrace) "g" 0 3 = some (2, 3) := by decide
  have := h 2 3 (2, 3) (2, 3) (by decide) h2 h3
  simp at this

/-- Counterexample to claim C3 as stated: the `ResaveBatch` call of
`resaveTrace` performs a direct (non-write-batch) storage mutation — the
put of the new batch's metadata record — so not all of its storage
mutations are committed through the atomic write-batch primitive. -/
theorem C3_counterexample_resave_direct_put :
    outAt resaveTrace 4 = .bool true ∧
    ((evDelta (stateAt resaveTrace 4) (stateAt resaveTrace 5)).filter
      Ev.isDirectMutation).length = 1 ∧
    (evDelta (stateAt resaveTrace 4) (stateAt resaveTrace 5)).any
      (fun e => Ev.isDirectMutation e && Ev.isMetaPut e) = true := by
  decide

/-- Counterexample to claim C4 as stated: at the reachable state
`runTrace peekTrace`, the peek operation returns the resident payloads
`["a", "b", "c", "e", "d"]` whose sequence numbers in return order are
`[0, 1, 2, 4, 3]` — not ascending sequence order.  (Payload `e`, sequence
4, was saved into the reused batch 1 after the batch size changed, and
data-key order sorts it before batch 2's payload `d`, sequence 3.) -/
theorem C4_counterexample_peek_not_sequence_ordered :
    PeekLoad "g" (runTrace peekTrace) = ["a", "b", "c", "e", "d"] ∧
    peekSeqList "g" (runTrace peekTrace) = [0, 1, 2, 4, 3] ∧
    ¬ List.Sorted (· ≤ ·) (peekSeqList "g" (runTrace peekTrace)) := by
  refine ⟨by decide, by decide, by decide⟩

/-- Counterexample to claim C9 as stated: the last operation of
`shrinkTrace` (index 7) is a save that allocates sequence 5 while the batch
size in effect is 3; `5 % 3 ≠ 0`, yet the save creates a new PENDING batch
record (the window start `⌊5/3⌋·3 = 3` has no entry in the current-batch
map, which only knows window start 0 from the batch-size-5 era). -/
theorem C9_counterexample_shrink_creates_batch :
    CreatesNewBatch shrinkTrace 7 ∧
    (stateAt shrinkTrace 7).defaultBatchSize = 3 ∧
    assocFind (stateAt shrinkTrace 7).groupSeqCounters "g" = some 4 ∧
    5 % 3 ≠ 0 := by
  refine ⟨?_, by decide, by decide, by decide⟩
  show numMetas (stateAt shrinkTrace 8) = numMetas (stateAt shrinkTrace 7) + 1
  decide

/-- Field-preservation facts: the storage and id/clock primitives leave the
coordinator maps untouched, and the coordinator helpers leave the fields
they do not mention untouched. -/
@[simp] theorem sPut_groupSessions (k : Key) (v : Val) (st : GSState) :
    (sPut k v st).groupSessions = st.groupSessions := rfl

@[simp] theorem sPut_groupSeqCounters (k : Key) (v : Val) (st : GSState) :
    (sPut k v st).groupSeqCounters = st.groupSeqCounters := rfl

@[simp] theorem sPut_groupCurrentBatchIds (k : Key) (v : Val) (st : GSState) :
    (sPut k v st).groupCurrentBatchIds = st.groupCurrentBatchIds := rfl

@[simp] theorem sPut_defaultBatchSize (k : Key) (v : Val) (st : GSState) :
    (sPut k v st).defaultBatchSize = st.defaultBatchSize := rfl

@[simp] theorem sPut_nextUlid (k : Key) (v : Val) (st : GSState) :
    (sPut k v st).nextUlid = st.nextUlid := rfl

@[simp] theorem sPut_wbatch (k : Key) (v : Val) (st : GSState) :
    (sPut k v st).wbatch = st.wbatch := rfl

@[simp] theorem sPut_store (k : Key) (v : Val) (st : GSState) :
    (sPut k v st).store = assocSet st.store k v := rfl

@[simp] theorem ulidGenerate_groupSessions (st : GSState) :
    (ulidGenerate st).2.groupSessions = st.groupSessions := rfl

@[simp] theorem ulidGenerate_store (st : GSState) :
    (ulidGenerate st).2.store = st.store := rfl

@[simp] theorem ulidNow_groupSessions (st : GSState) :
    (ulidNow st).2.groupSessions = st.groupSessions := rfl

@[simp] theorem ulidNow_store (st : GSState) :
    (ulidNow st).2.store = st.store := rfl

@[simp] theorem CreateBatch_groupSessions (g : String) (s qs qe : Nat) (st : GSState) :
    (CreateBatch g s qs qe st).2.groupSessions = st.groupSessions := rfl

@[simp] theorem GetNextSequenceId_groupSessions (g : String) (st : GSState) :
    (GetNextSequenceId g st).2.groupSessions = st.groupSessions := by
  simp only [GetNextSequenceId]
  split <;> rfl

@[simp] theorem saveFinish_groupSessions (g : String) (sid bid q : Nat) (d : String)
    (st : GSState) :
    (saveFinish g sid bid q d st).2.groupSessions = st.groupSessions := by
  simp only [saveFinish]
  split <;> rfl

/-- `Save` leaves `group_sessions_` exactly as the session lookup/creation
step left it. -/
@[simp] theorem saveWithSession_groupSessions (g : String) (sid : Nat) (d : String)
    (st : GSState) :
    (saveWithSession g sid d st).2.groupSessions = st.groupSessions := by
  simp only [saveWithSession]
  split <;> simp

theorem Save_groupSessions (g : String) (d : String) (st : GSState) :
    (Save g d st).2.groupSessions = (GetOrCreateSession g st).2.groupSessions := by
  simp only [Save]
  rcases hgo : GetOrCreateSession g st with ⟨osid, st1⟩
  cases osid with
  | none => rfl
  | some sid => simp

/-- The data keys of a single-sequence range `[q, q]`. -/
theorem GenerateDataKeys_single (g : String) (s b q : Nat) :
    GenerateDataKeys g s b q q = [.dataKey g s b q] := by
  have h1 : q + 1 - q = 1 := by omega
  simp [GenerateDataKeys, h1, List.range', MakeDataKey]

/-- Claim C6: `MarkBatchAsLoaded` raises the distinct fatal error
`BatchNotFoundException` when the metadata record is missing and the
distinct fatal error `CorruptedBatchException` when it fails to parse;
returns `false` leaving the state (and so the record) unchanged when the
record's status is already LOADED; and otherwise flips the status to
LOADED, sets `loaded_at` to the current time, writes the record back, and
returns `true`. -/
theorem C6_mark_batch_as_loaded (st : GSState) (g : String) (s b : Nat) :
    (MetaAt st g s b = none →
      MarkBatchAsLoaded g s b st = .error (.batchNotFound b)) ∧
    (∀ v, MetaAt st g s b = some v → (∀ m, v ≠ Val.meta m) →
      MarkBatchAsLoaded g s b st = .error (.corruptedBatch b)) ∧
    DSErr.batchNotFound b ≠ DSErr.corruptedBatch b ∧
    (∀ m, MetaAt st g s b = some (.meta m) → m.status = .loaded →
      MarkBatchAsLoaded g s b st = .ok (false, st)) ∧
    (∀ m, MetaAt st g s b = some (.meta m) → m.status ≠ .loaded →
      MarkBatchAsLoaded g s b st =
        .ok (true, sPut (.batchMetadataKey g s b)
          (.meta { m with status := .loaded, loadedAt := st.clock })
          { st with clock := st.clock + 1 })) := by
  refine ⟨?_, ?_, by simp, ?_, ?_⟩
  · intro h
    simp only [MarkBatchAsLoaded]
    rw [show sGet (.batchMetadataKey g s b) st = none from h]
  · intro v hv hnm
    simp only [MarkBatchAsLoaded]
    rw [show sGet (.batchMetadataKey g s b) st = some v from hv]
    cases v with
    | meta m => exact absurd rfl (hnm m)
    | sess s0 => rfl
    | payload d => rfl
    | corrupt => rfl
  · intro m hm hl
    simp only [MarkBatchAsLoaded]
    rw [show sGet (.batchMetadataKey g s b) st = some (.meta m) from hm]
    simp [hl]
  · intro m hm hl
    simp only [MarkBatchAsLoaded]
    rw [show sGet (.batchMetadataKey g s b) st = some (.meta m) from hm]
    simp [hl, ulidNow]

/-- A one-record state whose only batch is already LOADED. -/
def c6State : GSState :=
  { initState with store := [(.batchMetadataKey "g" 0 5, .meta ⟨5, 0, 9, .loaded, 0, 0⟩)] }

/-- Witness for claim C6 at a concrete state: marking the already-LOADED
batch 5 returns `false` and changes nothing. -/
theorem C6_mark_batch_as_loaded_witness :
    MarkBatchAsLoaded "g" 0 5 c6State = .ok (false, c6State) :=
  (C6_mark_batch_as_loaded c6State "g" 0 5).2.2.2.1 ⟨5, 0, 9, .loaded, 0, 0⟩ rfl rfl

/-- Claim C10: for a group with no session in this coordinator's
`group_sessions_` map, `LoadBatch` returns the empty list and
`AcknowledgeBatch` returns `false`, neither modifying the state at all —
whatever batch and payload records exist in storage (the state `st` is
arbitrary, so in particular it may hold records written by an earlier
process).  `Save`, by contrast, leaves the group with a session in the
map. -/
theorem C10_no_session_reads_nothing (st : GSState) (g : String) (n b : Nat) (d : String)
    (h : assocFind st.groupSessions g = none) :
    LoadBatch g n st = (.ok [], st) ∧
    AcknowledgeBatch g b st = (false, st) ∧
    (assocFind (Save g d st).2.groupSessions g).isSome = true := by
  refine ⟨?_, ?_, ?_⟩
  · simp only [LoadBatch]
    rw [h]
  · simp only [AcknowledgeBatch]
    rw [h]
  · rw [Save_groupSessions]
    simp only [GetOrCreateSession]
    rw [h]
    simp only [InitializeSession, smInitializeSession, ulidGenerate, ulidNow, sPut,
      if_true, Option.getD_some]
    simp [assocFind_assocSet]

/-- Witness for claim C10 at the initial state: no session exists for
`"g"`, so `LoadBatch` is empty and `AcknowledgeBatch` is `false` with the
state untouched, and a `Save` installs a session. -/
theorem C10_no_session_reads_nothing_witness :
    LoadBatch "g" 7 initState = (.ok [], initState) ∧
    AcknowledgeBatch "g" 3 initState = (false, initState) ∧
    (assocFind (Save "g" "a" initState).2.groupSessions "g").isSome = true :=
  C10_no_session_reads_nothing initState "g" 7 3 "a" rfl

theorem evDelta_of_append (st st2 : GSState) (evs : List Ev)
    (h : st2.log = st.log ++ evs) : evDelta st st2 = evs := by
  simp [evDelta, h]

theorem GetNextSequenceId_log (g : String) (st : GSState) :
    (GetNextSequenceId g st).2.log = st.log := by
  simp only [GetNextSequenceId]
  split <;> rfl

theorem GetOrCreateSession_logSpec (g : String) (st : GSState) :
    ∃ evs, (GetOrCreateSession g st).2.log = st.log ++ evs ∧
      ∀ e ∈ evs, ∃ s v, e = Ev.putE (.sessionStateKey g s) v := by
  simp only [GetOrCreateSession]
  cases h : assocFind st.groupSessions g with
  | some sid => exact ⟨[], by simp, by simp⟩
  | none =>
    refine ⟨[Ev.putE (.sessionStateKey g st.nextUlid)
      (.sess ⟨st.nextUlid, 0, st.clock, st.clock + 1, .active⟩)], ?_, ?_⟩
    · rfl
    · intro e he
      simp only [List.mem_singleton] at he
      exact ⟨st.nextUlid, _, he⟩

theorem CreateBatch_logSpec (g : String) (s qs qe : Nat) (st : GSState) :
    (CreateBatch g s qs qe st).2.log = st.log ++
      [Ev.putE (.batchMetadataKey g s st.nextUlid)
        (.meta ⟨st.nextUlid, qs, qe, .pending, st.clock, 0⟩)] := rfl

theorem saveFinish_log (g : String) (sid bid q : Nat) (d : String) (st : GSState) :
    (saveFinish g sid bid q d st).2.log =
      st.log ++ [Ev.putE (.dataKey g sid bid q) (.payload d)] := by
  rw [saveFinish, GenerateDataKeys_single]
  rfl

theorem foldl_sDeleteFromBatch_logSpec (keys : List Key) (st : GSState) :
    ∃ evs, (keys.foldl (fun acc k => sDeleteFromBatch k acc) st).log = st.log ++ evs ∧
      ∀ e ∈ evs, ∃ k, e = Ev.delFromBatchE k := by
  induction keys generalizing st with
  | nil => exact ⟨[], by simp, by simp⟩
  | cons k t ih =>
    simp only [List.foldl_cons]
    obtain ⟨evs, h1, h2⟩ := ih (sDeleteFromBatch k st)
    cases hw : st.wbatch with
    | none =>
      refine ⟨evs, ?_, h2⟩
      rw [h1]
      simp [sDeleteFromBatch, hw]
    | some ops =>
      refine ⟨.delFromBatchE k :: evs, ?_, ?_⟩
      · rw [h1]
        simp [sDeleteFromBatch, hw]
      · intro e he
        rcases List.mem_cons.mp he with he | he
        · exact ⟨k, he⟩
        · exact h2 e he

theorem bmAcknowledgeBatch_logSpec (g : String) (s b : Nat) (st : GSState) :
    ∃ evs, (bmAcknowledgeBatch g s b st).2.log = st.log ++ evs ∧
      ∀ e ∈ evs, Ev.isDirectMutation e = false := by
  simp only [bmAcknowledgeBatch]
  cases hget : sGet (.batchMetadataKey g s b) st with
  | none => exact ⟨[], by simp, by simp⟩
  | some v =>
    cases v with
    | sess s0 => exact ⟨[], by simp, by simp⟩
    | payload d => exact ⟨[], by simp, by simp⟩
    | corrupt => exact ⟨[], by simp, by simp⟩
    | meta m =>
      simp only [sBeginBatch]
      cases hw : st.wbatch with
      | some ops => exact ⟨[], by simp, by simp⟩
      | none =>
        simp only []
        set st1 : GSState :=
          { st with wbatch := some [], log := st.log ++ [Ev.beginBatchE] } with hst1
        set st2 := sDeleteFromBatch (.batchMetadataKey g s b) st1 with hst2
        obtain ⟨evs, h1, h2⟩ := foldl_sDeleteFromBatch_logSpec
          (GenerateDataKeys g s b m.sequenceStart m.sequenceEnd) st2
        have hst2log : st2.log = st.log ++ [Ev.beginBatchE, Ev.delFromBatchE (.batchMetadataKey g s b)] := by
          rw [hst2, hst1]
          simp [sDeleteFromBatch]
        set st3 := (GenerateDataKeys g s b m.sequenceStart m.sequenceEnd).foldl
          (fun acc k => sDeleteFromBatch k acc) st2 with hst3
        have hst3w : ∃ ops2, st3.wbatch = some ops2 := by
          rw [hst3]
          clear h1 h2 hst3
          have : ∃ ops2, st2.wbatch = some ops2 := by
            rw [hst2, hst1]
            simp [sDeleteFromBatch]
          revert this
          generalize st2 = s0
          generalize GenerateDataKeys g s b m.sequenceStart m.sequenceEnd = ks
          intro hs0
          induction ks generalizing s0 with
          | nil => exact hs0
          | cons k t ih =>
            simp only [List.foldl_cons]
            apply ih
            obtain ⟨o, ho⟩ := hs0
            simp [sDeleteFromBatch, ho]
        obtain ⟨ops2, hops2⟩ := hst3w
        refine ⟨[Ev.beginBatchE, Ev.delFromBatchE (.batchMetadataKey g s b)] ++ evs ++
          [Ev.commitBatchE], ?_, ?_⟩
        · simp only [sCommitBatch, hops2]
          rw [h1, hst2log]
          simp
        · intro e he
          rcases List.mem_append.mp he with he1 | he1
          · rcases List.mem_append.mp he1 with he2 | he2
            · rcases List.mem_cons.mp he2 with rfl | he3
              · rfl
              · rcases List.mem_singleton.mp he3 with rfl
                rfl
            · obtain ⟨k, hk⟩ := h2 e he2
              subst hk
              rfl
          · rcases List.mem_singleton.mp he1 with rfl
            rfl

theorem putPairs_logSpec (ps : List (Key × String)) (st : GSState) :
    ∃ evs, (putPairs ps st).log = st.log ++ evs ∧
      ∀ e ∈ evs, ∃ k v, e = Ev.putToBatchE k v := by
  induction ps generalizing st with
  | nil => exact ⟨[], by simp [putPairs], by simp⟩
  | cons p t ih =>
    obtain ⟨k, d⟩ := p
    simp only [putPairs]
    obtain ⟨evs, h1, h2⟩ := ih (sPutToBatch k (.payload d) st)
    cases hw : st.wbatch with
    | none =>
      refine ⟨evs, ?_, h2⟩
      rw [h1]
      simp [sPutToBatch, hw]
    | some ops =>
      refine ⟨.putToBatchE k (.payload d) :: evs, ?_, ?_⟩
      · rw [h1]
        simp [sPutToBatch, hw]
      · intro e he
        rcases List.mem_cons.mp he with he | he
        · exact ⟨k, _, he⟩
        · exact h2 e he

theorem saveWithSession_logSpec (g : String) (sid : Nat) (d : String) (st : GSState) :
    ∃ evs bid q,
      (saveWithSession g sid d st).2.log =
        st.log ++ (evs ++ [Ev.putE (.dataKey g sid bid q) (.payload d)]) ∧
      ∀ e ∈ evs, Ev.isDataPut e = false ∧ ∃ k v, e = Ev.putE k v := by
  simp only [saveWithSession]
  split
  · refine ⟨[Ev.putE (Key.batchMetadataKey g sid (GetNextSequenceId g st).2.nextUlid)
        (Val.meta ⟨(GetNextSequenceId g st).2.nextUlid,
          (GetNextSequenceId g st).1 / (GetNextSequenceId g st).2.defaultBatchSize *
            (GetNextSequenceId g st).2.defaultBatchSize,
          (GetNextSequenceId g st).1 / (GetNextSequenceId g st).2.defaultBatchSize *
            (GetNextSequenceId g st).2.defaultBatchSize +
            (GetNextSequenceId g st).2.defaultBatchSize - 1,
          .pending, (GetNextSequenceId g st).2.clock, 0⟩)],
      (CreateBatch g sid
        ((GetNextSequenceId g st).1 / (GetNextSequenceId g st).2.defaultBatchSize *
          (GetNextSequenceId g st).2.defaultBatchSize)
        ((GetNextSequenceId g st).1 / (GetNextSequenceId g st).2.defaultBatchSize *
          (GetNextSequenceId g st).2.defaultBatchSize +
          (GetNextSequenceId g st).2.defaultBatchSize - 1)
        (GetNextSequenceId g st).2).1,
      (GetNextSequenceId g st).1, ?_, ?_⟩
    · rw [saveFinish_log]
      show (CreateBatch g sid _ _ (GetNextSequenceId g st).2).2.log ++ _ = _
      rw [CreateBatch_logSpec, GetNextSequenceId_log, List.append_assoc]
    · intro e he
      rcases List.mem_singleton.mp he with rfl
      exact ⟨rfl, _, _, rfl⟩
  · rename_i bid0 heq0
    refine ⟨[], bid0, (GetNextSequenceId g st).1, ?_, by simp⟩
    rw [saveFinish_log, GetNextSequenceId_log]
    simp

theorem Save_logSpec (g : String) (d : String) (st : GSState) :
    ∃ evs sid bid q,
      (Save g d st).2.log =
        st.log ++ (evs ++ [Ev.putE (.dataKey g sid bid q) (.payload d)]) ∧
      ∀ e ∈ evs, Ev.isDataPut e = false ∧ ∃ k v, e = Ev.putE k v := by
  cases hs : assocFind st.groupSessions g with
  | some sid =>
    have hS : Save g d st = saveWithSession g sid d st := by
      simp only [Save, GetOrCreateSession, hs]
    rw [hS]
    obtain ⟨evs, bid, q, h1, h2⟩ := saveWithSession_logSpec g sid d st
    exact ⟨evs, sid, bid, q, h1, h2⟩
  | none =>
    have hS : Save g d st = saveWithSession g st.nextUlid d
        { st with
        store := assocSet st.store (Key.sessionStateKey g st.nextUlid)
          (Val.sess ⟨st.nextUlid, 0, st.clock, st.clock + 1, .active⟩),
        log := st.log ++ [Ev.putE (Key.sessionStateKey g st.nextUlid)
          (Val.sess ⟨st.nextUlid, 0, st.clock, st.clock + 1, .active⟩)],
        smSession := some st.nextUlid, smGroup := g,
        groupSessions := assocSet st.groupSessions g st.nextUlid,
        nextUlid := st.nextUlid + 1, clock := st.clock + 1 + 1 } := by
      simp only [Save, GetOrCreateSession, hs, InitializeSession, smInitializeSession,
        ulidGenerate, ulidNow, sPut, if_true, Option.getD_some]
      rw [assocFind_assocSet]
      simp
    rw [hS]
    obtain ⟨evs, bid, q, h1, h2⟩ := saveWithSession_logSpec g st.nextUlid d
      { st with
        store := assocSet st.store (Key.sessionStateKey g st.nextUlid)
          (Val.sess ⟨st.nextUlid, 0, st.clock, st.clock + 1, .active⟩),
        log := st.log ++ [Ev.putE (Key.sessionStateKey g st.nextUlid)
          (Val.sess ⟨st.nextUlid, 0, st.clock, st.clock + 1, .active⟩)],
        smSession := some st.nextUlid, smGroup := g,
        groupSessions := assocSet st.groupSessions g st.nextUlid,
        nextUlid := st.nextUlid + 1, clock := st.clock + 1 + 1 }
    refine ⟨Ev.putE (Key.sessionStateKey g st.nextUlid)
      (Val.sess ⟨st.nextUlid, 0, st.clock, st.clock + 1, .active⟩) :: evs,
      st.nextUlid, bid, q, ?_, ?_⟩
    · rw [h1]
      simp
    · intro e he
      rcases List.mem_cons.mp he with rfl | he
      · exact ⟨rfl, _, _, rfl⟩
      · exact h2 e he

theorem sBeginBatch_logNonDirect (st : GSState) :
    ∃ evs, (sBeginBatch st).2.log = st.log ++ evs ∧
      ∀ e ∈ evs, Ev.isDirectMutation e = false := by
  cases hw : st.wbatch with
  | some ops => exact ⟨[], by simp [sBeginBatch, hw], by simp⟩
  | none =>
    refine ⟨[Ev.beginBatchE], by simp [sBeginBatch, hw], ?_⟩
    intro e he
    rcases List.mem_singleton.mp he with rfl
    rfl

theorem sCommitBatch_logNonDirect (st : GSState) :
    ∃ evs, (sCommitBatch st).2.log = st.log ++ evs ∧
      ∀ e ∈ evs, Ev.isDirectMutation e = false := by
  cases hw : st.wbatch with
  | none => exact ⟨[], by simp [sCommitBatch, hw], by simp⟩
  | some ops =>
    refine ⟨[Ev.commitBatchE], by simp [sCommitBatch, hw], ?_⟩
    intro e he
    rcases List.mem_singleton.mp he with rfl
    rfl

/-- Claim C3 (amended): every `Save` carries its payload in exactly one
direct put of a data key and performs no other kind of direct mutation (so
a failed save can never leave a half-written payload record);
`AcknowledgeBatch` performs no direct mutations at all — everything it
changes goes through the atomic write batch; `ResaveBatch`'s only direct
mutation is the put of the new batch's metadata record — its payload puts
and attempted deletions go through the write batch. -/
theorem C3_save_single_put_ack_resave_batched (st : GSState) (g : String)
    (d : String) (b : Nat) (R : List String) :
    ((evDelta st (Save g d st).2).filter Ev.isDataPut).length = 1 ∧
    (∀ e ∈ evDelta st (Save g d st).2, Ev.isDirectMutation e = true →
      ∃ k v, e = Ev.putE k v) ∧
    (∀ e ∈ evDelta st (AcknowledgeBatch g b st).2, Ev.isDirectMutation e = false) ∧
    (∀ p, ResaveBatch g b R st = .ok p →
      ∀ e ∈ evDelta st p.2, Ev.isDirectMutation e = true → Ev.isMetaPut e = true) := by
  obtain ⟨evs, sid, bid, q, h1, h2⟩ := Save_logSpec g d st
  have hdelta : evDelta st (Save g d st).2 =
      evs ++ [Ev.putE (.dataKey g sid bid q) (.payload d)] :=
    evDelta_of_append _ _ _ h1
  refine ⟨?_, ?_, ?_, ?_⟩
  · rw [hdelta, List.filter_append]
    have : evs.filter Ev.isDataPut = [] := by
      apply List.filter_eq_nil_iff.mpr
      intro e he
      simp [(h2 e he).1]
    rw [this]
    rfl
  · intro e he hdm
    rw [hdelta] at he
    rcases List.mem_append.mp he with he | he
    · exact (h2 e he).2
    · rcases List.mem_singleton.mp he with rfl
      exact ⟨_, _, rfl⟩
  · intro e he
    have : ∃ evs2, (AcknowledgeBatch g b st).2.log = st.log ++ evs2 ∧
        ∀ e2 ∈ evs2, Ev.isDirectMutation e2 = false := by
      simp only [AcknowledgeBatch]
      cases hs : assocFind st.groupSessions g with
      | none => exact ⟨[], by simp, by simp⟩
      | some sid2 => exact bmAcknowledgeBatch_logSpec g sid2 b st
    obtain ⟨evs2, ha1, ha2⟩ := this
    rw [evDelta_of_append _ _ _ ha1] at he
    exact ha2 e he
  · intro p hp e he hdm
    have hspec : ∃ evs2, p.2.log = st.log ++ evs2 ∧
        ∀ e2 ∈ evs2, Ev.isDirectMutation e2 = true → Ev.isMetaPut e2 = true := by
      simp only [ResaveBatch] at hp
      cases hsx : assocFind st.groupSessions g with
      | none =>
        simp only [hsx] at hp
        cases hp
        exact ⟨[], by simp, by simp⟩
      | some sid2 =>
        simp only [hsx] at hp
        split at hp
        · exact Except.noConfusion hp
        · cases hp
          exact ⟨[], by simp, by simp⟩
        · rename_i m
          split at hp
          · cases hp
            exact ⟨[], by simp, by simp⟩
          · split at hp
            · cases hp
              obtain ⟨evs2, hb1, hb2⟩ := bmAcknowledgeBatch_logSpec g sid2 b st
              exact ⟨evs2, hb1, fun e2 he2 hd2 => absurd hd2 (by simp [hb2 e2 he2])⟩
            · have hclog : (CreateBatch g sid2 (GetNextSequenceId g st).1
                  ((GetNextSequenceId g st).1 + R.length - 1)
                  (GetNextSequenceId g st).2).2.log = st.log ++
                  [Ev.putE (.batchMetadataKey g sid2 (GetNextSequenceId g st).2.nextUlid)
                    (.meta ⟨(GetNextSequenceId g st).2.nextUlid, (GetNextSequenceId g st).1,
                      (GetNextSequenceId g st).1 + R.length - 1, .pending,
                      (GetNextSequenceId g st).2.clock, 0⟩)] := by
                rw [CreateBatch_logSpec, GetNextSequenceId_log]
              obtain ⟨e1, hb1, hb2⟩ := sBeginBatch_logNonDirect
                (CreateBatch g sid2 (GetNextSequenceId g st).1
                  ((GetNextSequenceId g st).1 + R.length - 1) (GetNextSequenceId g st).2).2
              split at hp
              · cases hp
                obtain ⟨e2, hq1, hq2⟩ := putPairs_logSpec
                  ((GenerateDataKeys g sid2 (CreateBatch g sid2 (GetNextSequenceId g st).1
                      ((GetNextSequenceId g st).1 + R.length - 1)
                      (GetNextSequenceId g st).2).1
                    (GetNextSequenceId g st).1
                    ((GetNextSequenceId g st).1 + R.length - 1)).zip R)
                  (sBeginBatch (CreateBatch g sid2 (GetNextSequenceId g st).1
                    ((GetNextSequenceId g st).1 + R.length - 1) (GetNextSequenceId g st).2).2).2
                obtain ⟨e3, ha1, ha2⟩ := bmAcknowledgeBatch_logSpec g sid2 b (putPairs _ _)
                obtain ⟨e4, hc1, hc2⟩ := sCommitBatch_logNonDirect
                  (bmAcknowledgeBatch g sid2 b (putPairs _ _)).2
                refine ⟨[Ev.putE (.batchMetadataKey g sid2 (GetNextSequenceId g st).2.nextUlid)
                    (.meta ⟨(GetNextSequenceId g st).2.nextUlid, (GetNextSequenceId g st).1,
                      (GetNextSequenceId g st).1 + R.length - 1, .pending,
                      (GetNextSequenceId g st).2.clock, 0⟩)] ++ e1 ++ e2 ++ e3 ++ e4, ?_, ?_⟩
                · show (sCommitBatch (bmAcknowledgeBatch g sid2 b (putPairs _ _)).2).2.log = _
                  rw [hc1, ha1, hq1, hb1, hclog]
                  simp
                · intro e2x he2 hd2
                  simp only [List.append_assoc, List.mem_append] at he2
                  rcases he2 with he2 | he2 | he2 | he2 | he2
                  · rcases List.mem_singleton.mp he2 with rfl
                    rfl
                  · exact absurd hd2 (by simp [hb2 e2x he2])
                  · obtain ⟨k, v, hkv⟩ := hq2 e2x he2
                    subst hkv
                    cases hd2
                  · exact absurd hd2 (by simp [ha2 e2x he2])
                  · exact absurd hd2 (by simp [hc2 e2x he2])
              · cases hp
                refine ⟨[Ev.putE (.batchMetadataKey g sid2 (GetNextSequenceId g st).2.nextUlid)
                    (.meta ⟨(GetNextSequenceId g st).2.nextUlid, (GetNextSequenceId g st).1,
                      (GetNextSequenceId g st).1 + R.length - 1, .pending,
                      (GetNextSequenceId g st).2.clock, 0⟩)] ++ e1, ?_, ?_⟩
                · show (sBeginBatch (CreateBatch g sid2 (GetNextSequenceId g st).1
                      ((GetNextSequenceId g st).1 + R.length - 1)
                      (GetNextSequenceId g st).2).2).2.log = _
                  rw [hb1, hclog]
                  simp
                · intro e2x he2 hd2
                  rcases List.mem_append.mp he2 with he2 | he2
                  · rcases List.mem_singleton.mp he2 with rfl
                    rfl
                  · exact absurd hd2 (by simp [hb2 e2x he2])
    obtain ⟨evs2, hr1, hr2⟩ := hspec
    rw [evDelta_of_append _ _ _ hr1] at he
    exact hr2 e he hdm

/-- Witness for claim C3 at a concrete state: the save of `"z"` into the
initial state performs exactly one put of a data key. -/
theorem C3_save_single_put_ack_resave_batched_witness :
    ((evDelta initState (Save "g" "z" initState).2).filter Ev.isDataPut).length = 1 :=
  (C3_save_single_put_ack_resave_batched initState "g" "z" 0 []).1

theorem filterMap_assocSet_none {γ : Type} (f : Key × Val → Option γ)
    (l : List (Key × Val)) (k : Key) (v : Val) (hf : ∀ w, f (k, w) = none) :
    (assocSet l k v).filterMap f = l.filterMap f := by
  induction l with
  | nil => simp [hf]
  | cons hd t ih =>
    obtain ⟨a, b⟩ := hd
    simp only [assocSet_cons]
    by_cases hak : a = k
    · subst hak
      simp [List.filterMap_cons, hf]
    · rw [if_neg hak]
      simp [List.filterMap_cons, ih]

theorem sessionDataEntries_sPut_meta (g : String) (sid : Nat) (gk : String)
    (sk bk : Nat) (v : Val) (st : GSState) :
    sessionDataEntries g sid (sPut (.batchMetadataKey gk sk bk) v st) =
      sessionDataEntries g sid st := by
  simp only [sessionDataEntries, sPut_store]
  rw [filterMap_assocSet_none]
  intro w
  rfl

/-- Claim C4 (amended): the peek operation ignores batch metadata entirely
(writing any batch metadata record leaves its result unchanged, so it does
not consult batch status), it returns exactly the payloads resident under
the group's session, and the entries it reads them from are sorted in
data-key order (batch id, then sequence).  It performs no state change by
construction: `PeekLoad` is a function of the state that returns only the
payload list. -/
theorem C4_peek_key_order_no_status (st : GSState) (g : String) (d : String)
    (gk : String) (sk bk : Nat) (v : Val) :
    (PeekLoad g (sPut (.batchMetadataKey gk sk bk) v st) = PeekLoad g st) ∧
    (∀ sid, assocFind st.groupSessions g = some sid →
      PeekLoad g st = (sessionDataEntries g sid st).map Prod.snd ∧
      List.Pairwise dataKeyOrder (sessionDataEntries g sid st) ∧
      (d ∈ PeekLoad g st ↔
        ∃ b q, ((Key.dataKey g sid b q : Key), (Val.payload d : Val)) ∈ st.store)) := by
  constructor
  · simp only [PeekLoad, sPut_groupSessions]
    cases hs : assocFind st.groupSessions g with
    | none => simp [hs]
    | some sid =>
      simp only [hs]
      rw [sessionDataEntries_sPut_meta]
  · intro sid hs
    refine ⟨by simp [PeekLoad, hs], ?_, ?_⟩
    · have htot : ∀ x y, dataKeyOrder x y ∨ dataKeyOrder y x := by
        intro x y
        simp only [dataKeyOrder]
        omega
      have htrans : ∀ x y z, dataKeyOrder x y → dataKeyOrder y z → dataKeyOrder x z := by
        intro x y z hxy hyz
        simp only [dataKeyOrder] at hxy hyz ⊢
        omega
      exact @List.sorted_insertionSort _ _ _ ⟨htot⟩ ⟨htrans⟩ _
    · simp only [PeekLoad, hs]
      constructor
      · intro hd
        obtain ⟨⟨⟨b, q⟩, d2⟩, hmem, hd2⟩ := List.mem_map.mp hd
        subst hd2
        have hmem2 := (List.Perm.mem_iff (List.perm_insertionSort _ _)).mp hmem
        obtain ⟨kv, hkv, hf⟩ := List.mem_filterMap.mp hmem2
        obtain ⟨k, w⟩ := kv
        refine ⟨b, q, ?_⟩
        cases k with
        | sessionStateKey g2 s2 => cases hf
        | batchMetadataKey g2 s2 b2 => cases hf
        | dataKey g2 s2 b2 q2 =>
          cases w with
          | sess s0 => cases hf
          | meta m => cases hf
          | corrupt => cases hf
          | payload d3 =>
            simp only [] at hf
            by_cases hgs : g2 = g ∧ s2 = sid
            · rw [if_pos hgs] at hf
              obtain ⟨h1, h2⟩ := hgs
              cases hf
              subst h1
              subst h2
              exact hkv
            · rw [if_neg hgs] at hf
              cases hf
      · rintro ⟨b, q, hmem⟩
        apply List.mem_map.mpr
        refine ⟨((b, q), d), ?_, rfl⟩
        apply (List.Perm.mem_iff (List.perm_insertionSort _ _)).mpr
        apply List.mem_filterMap.mpr
        exact ⟨(Key.dataKey g sid b q, Val.payload d), hmem, by simp⟩

/-- Witness for claim C4 at a concrete state: after one save, writing a
metadata record does not change the peek result, and the saved payload is
in it. -/
theorem C4_peek_key_order_no_status_witness :
    (PeekLoad "g" (sPut (.batchMetadataKey "g" 0 9) .corrupt
        (runTrace [.initializeSession "g", .save "g" "a"])) =
      PeekLoad "g" (runTrace [.initializeSession "g", .save "g" "a"])) ∧
    "a" ∈ PeekLoad "g" (runTrace [.initializeSession "g", .save "g" "a"]) :=
  ⟨(C4_peek_key_order_no_status (runTrace [.initializeSession "g", .save "g" "a"])
      "g" "a" "g" 0 9 .corrupt).1,
   ((C4_peek_key_order_no_status (runTrace [.initializeSession "g", .save "g" "a"])
      "g" "a" "g" 0 9 .corrupt).2 0 (by decide)).2.2.mpr ⟨1, 0, by decide⟩⟩

theorem sGet_sPut (k k2 : Key) (v : Val) (st : GSState) :
    sGet k2 (sPut k v st) = if k = k2 then some v else sGet k2 st := by
  simp only [sGet, sPut_store]
  exact assocFind_assocSet st.store k v k2

theorem assocFind_mem [DecidableEq α] (l : List (α × β)) (k : α) (v : β)
    (h : assocFind l k = some v) : (k, v) ∈ l := by
  induction l with
  | nil => cases h
  | cons hd t ih =>
    obtain ⟨a, b⟩ := hd
    simp only [assocFind_cons] at h
    by_cases hak : a = k
    · rw [if_pos hak] at h
      cases h
      subst hak
      exact List.mem_cons_self _ _
    · rw [if_neg hak] at h
      exact List.mem_cons_of_mem _ (ih h)

theorem mem_assocFind [DecidableEq α] (l : List (α × β)) (k : α) (v : β)
    (h : (k, v) ∈ l) (hnd : (l.map Prod.fst).Nodup) : assocFind l k = some v := by
  induction l with
  | nil => cases h
  | cons hd t ih =>
    obtain ⟨a, b⟩ := hd
    simp only [List.map_cons, List.nodup_cons] at hnd
    rcases List.mem_cons.mp h with heq | hmem
    · cases heq
      simp
    · have hak : a ≠ k := by
        intro hk
        subst hk
        exact hnd.1 (List.mem_map.mpr ⟨(a, v), hmem, rfl⟩)
      simp only [assocFind_cons, if_neg hak]
      exact ih hmem hnd.2

theorem mem_map_fst_assocSet [DecidableEq α] (l : List (α × β)) (k : α) (v : β) (x : α) :
    x ∈ (assocSet l k v).map Prod.fst ↔ x = k ∨ x ∈ l.map Prod.fst := by
  induction l with
  | nil => simp [eq_comm]
  | cons hd t ih =>
    obtain ⟨a, b⟩ := hd
    simp only [assocSet_cons]
    by_cases hak : a = k
    · subst hak
      simp [eq_comm]
    · rw [if_neg hak]
      simp only [List.map_cons, List.mem_cons, ih]
      tauto

theorem nodup_assocSet [DecidableEq α] (l : List (α × β)) (k : α) (v : β)
    (hnd : (l.map Prod.fst).Nodup) : ((assocSet l k v).map Prod.fst).Nodup := by
  induction l with
  | nil => simp
  | cons hd t ih =>
    obtain ⟨a, b⟩ := hd
    simp only [List.map_cons, List.nodup_cons] at hnd
    simp only [assocSet_cons]
    by_cases hak : a = k
    · subst hak
      rw [if_pos rfl]
      simp only [List.map_cons, List.nodup_cons]
      exact hnd
    · simp only [if_neg hak, List.map_cons, List.nodup_cons]
      refine ⟨?_, ih hnd.2⟩
      intro hmem
      rcases (mem_map_fst_assocSet t k v a).mp hmem with rfl | hmem
      · exact hak rfl
      · exact hnd.1 hmem

theorem mem_assocSet [DecidableEq α] (l : List (α × β)) (k : α) (v : β)
    (kv : α × β) (h : kv ∈ assocSet l k v) : kv = (k, v) ∨ kv ∈ l := by
  induction l with
  | nil => simpa using h
  | cons hd t ih =>
    obtain ⟨a, b⟩ := hd
    simp only [assocSet_cons] at h
    by_cases hak : a = k
    · rw [if_pos hak] at h
      rcases List.mem_cons.mp h with rfl | hmem
      · exact Or.inl rfl
      · exact Or.inr (List.mem_cons_of_mem _ hmem)
    · rw [if_neg hak] at h
      rcases List.mem_cons.mp h with rfl | hmem
      · exact Or.inr (List.mem_cons_self _ _)
      · rcases ih hmem with h2 | h2
        · exact Or.inl h2
        · exact Or.inr (List.mem_cons_of_mem _ h2)

theorem StoreWF_assocSet (l : List (Key × Val)) (k : Key) (v : Val)
    (hwf : StoreWF l) (hv : entryWF (k, v) = true) : StoreWF (assocSet l k v) := by
  refine ⟨nodup_assocSet l k v hwf.1, ?_⟩
  intro kv hkv
  rcases mem_assocSet l k v kv hkv with rfl | hkv
  · exact hv
  · exact hwf.2 kv hkv

theorem MarkEvolve.refl (st : GSState) : MarkEvolve st st :=
  ⟨fun _ _ _ => Or.inl rfl, fun _ _ _ _ => rfl, rfl, rfl, id⟩

theorem BatchMetadata.flip_flip (m : BatchMetadata) (t1 t2 : Nat) :
    ({ { m with status := .loaded, loadedAt := t1 } with
        status := BatchStatus.loaded, loadedAt := t2 } : BatchMetadata) =
      { m with status := .loaded, loadedAt := t2 } := rfl

theorem MarkEvolve.trans (st1 st2 st3 : GSState)
    (h1 : MarkEvolve st1 st2) (h2 : MarkEvolve st2 st3) : MarkEvolve st1 st3 := by
  refine ⟨?_, ?_, ?_, ?_, ?_⟩
  · intro g s b
    rcases h2.meta g s b with h2m | ⟨m, t, hm1, hm2⟩
    · rw [h2m]
      exact h1.meta g s b
    · rcases h1.meta g s b with h1m | ⟨m0, t0, hm01, hm02⟩
      · rw [h1m] at hm1
        exact Or.inr ⟨m, t, hm1, hm2⟩
      · rw [hm02] at hm1
        cases hm1
        refine Or.inr ⟨m0, t, hm01, ?_⟩
        rw [hm2]
  · intro g s b q
    rw [h2.data g s b q, h1.data g s b q]
  · rw [h2.wb, h1.wb]
  · rw [h2.ulid, h1.ulid]
  · exact fun h => h2.nodup (h1.nodup h)

/-- A successful `MarkBatchAsLoaded` call evolves the store by at most one
in-place flip. -/
theorem MarkBatchAsLoaded_evolve (g : String) (sid b : Nat) (st : GSState)
    (r : Bool) (st2 : GSState) (h : MarkBatchAsLoaded g sid b st = .ok (r, st2)) :
    MarkEvolve st st2 := by
  simp only [MarkBatchAsLoaded] at h
  cases hget : sGet (.batchMetadataKey g sid b) st with
  | none =>
    rw [hget] at h
    cases h
  | some v =>
    rw [hget] at h
    cases v with
    | sess s0 => cases h
    | payload d => cases h
    | corrupt => cases h
    | meta m =>
      simp only [] at h
      by_cases hl : m.status = .loaded
      · rw [if_pos hl] at h
        cases h
        exact MarkEvolve.refl _
      · rw [if_neg hl] at h
        cases h
        refine ⟨?_, ?_, rfl, rfl, ?_⟩
        · intro g2 s2 b2
          rw [MetaAt, sGet_sPut]
          by_cases hk : Key.batchMetadataKey g sid b = Key.batchMetadataKey g2 s2 b2
          · rw [if_pos hk]
            cases hk
            exact Or.inr ⟨m, st.clock, hget, rfl⟩
          · rw [if_neg hk]
            exact Or.inl rfl
        · intro g2 s2 b2 q2
          rw [sGet_sPut]
          rw [if_neg (by simp)]
          rfl
        · intro hnd
          exact nodup_assocSet _ _ _ hnd

/-- A successful `MarkBatchAsLoaded` call preserves store well-formedness. -/
theorem MarkBatchAsLoaded_wf (g : String) (sid b : Nat) (st : GSState)
    (r : Bool) (st2 : GSState) (h : MarkBatchAsLoaded g sid b st = .ok (r, st2))
    (hwf : StoreWF st.store) : StoreWF st2.store := by
  simp only [MarkBatchAsLoaded] at h
  cases hget : sGet (.batchMetadataKey g sid b) st with
  | none =>
    rw [hget] at h
    cases h
  | some v =>
    rw [hget] at h
    cases v with
    | sess s0 => cases h
    | payload d => cases h
    | corrupt => cases h
    | meta m =>
      simp only [] at h
      by_cases hl : m.status = .loaded
      · rw [if_pos hl] at h
        cases h
        exact hwf
      · rw [if_neg hl] at h
        cases h
        apply StoreWF_assocSet _ _ _ hwf
        have hbid : m.batchId = b := by
          have hmem := assocFind_mem _ _ _ hget
          have := hwf.2 _ hmem
          simpa [entryWF] using this
        simp [entryWF, hbid]

theorem loadLoop_acc (g : String) (sid : Nat) (bids : List Nat)
    (acc : List BatchLoadResult) (st : GSState) :
    (loadLoop g sid bids acc st).2 = (loadLoop g sid bids [] st).2 ∧
    (loadLoop g sid bids acc st).1 =
      (loadLoop g sid bids [] st).1.map (fun rs => acc ++ rs) := by
  induction bids generalizing acc st with
  | nil => simp [loadLoop, Except.map]
  | cons b rest ih =>
    simp only [loadLoop]
    split
    · simp [Except.map]
    · exact ih _ _
    · rename_i st1x hm
      split
      · simp [Except.map]
      · exact ih _ _
      · rename_i r0 hld
        obtain ⟨h1, h2⟩ := ih (acc ++ [r0]) st1x
        obtain ⟨h3, h4⟩ := ih [r0] st1x
        simp only [List.nil_append]
        refine ⟨h1.trans h3.symm, ?_⟩
        rw [h2, h4]
        cases (loadLoop g sid rest [] st1x).1 <;> simp [Except.map]

/-- Inversion of a `MarkBatchAsLoaded` call that returned `true`. -/
theorem MarkBatchAsLoaded_true (g : String) (sid b : Nat) (st st1 : GSState)
    (h : MarkBatchAsLoaded g sid b st = .ok (true, st1)) :
    ∃ m, sGet (.batchMetadataKey g sid b) st = some (.meta m) ∧
      m.status ≠ .loaded ∧
      st1 = sPut (.batchMetadataKey g sid b)
        (.meta { m with status := .loaded, loadedAt := st.clock })
        { st with clock := st.clock + 1 } := by
  simp only [MarkBatchAsLoaded] at h
  cases hget : sGet (.batchMetadataKey g sid b) st with
  | none =>
    rw [hget] at h
    cases h
  | some v =>
    rw [hget] at h
    cases v with
    | sess s0 => cases h
    | payload d => cases h
    | corrupt => cases h
    | meta m =>
      simp only [] at h
      by_cases hl : m.status = .loaded
      · rw [if_pos hl] at h
        cases h
      · rw [if_neg hl] at h
        cases h
        exact ⟨m, rfl, hl, rfl⟩

/-- The per-pair facts the load loop establishes for every result it
returns: the result's batch had a record at the entry state that was not
LOADED, the result carries that record's window, its data is exactly the
values present at the entry state over that window, and the record ends up
LOADED. -/
def LoopResultFact (st st2 : GSState) (g : String) (sid : Nat)
    (r : BatchLoadResult) : Prop :=
  ∃ m0, MetaAt st g sid r.batchId = some (.meta m0) ∧ m0.status ≠ .loaded ∧
    r.sequenceStart = m0.sequenceStart ∧ r.sequenceEnd = m0.sequenceEnd ∧
    r.data = (GenerateDataKeys g sid r.batchId m0.sequenceStart m0.sequenceEnd).filterMap
      (fun k => (sGet k st).map Val.bytes) ∧
    ∃ m1, MetaAt st2 g sid r.batchId = some (.meta m1) ∧ m1.status = .loaded

theorem loadLoop_transfer (st st1 st2 : GSState) (rs : List BatchLoadResult)
    (g : String) (sid : Nat) (hev : MarkEvolve st st1)
    (hfacts : ∀ r ∈ rs, LoopResultFact st1 st2 g sid r) :
    ∀ r ∈ rs, LoopResultFact st st2 g sid r := by
  intro r2 hr2
  obtain ⟨m0, hm0, hst0, hs0, he0, hd0, m1, hm1, hs1⟩ := hfacts r2 hr2
  rcases hev.meta g sid r2.batchId with hsame | ⟨m2, t, hm21, hm22⟩
  · rw [hsame] at hm0
    refine ⟨m0, hm0, hst0, hs0, he0, ?_, m1, hm1, hs1⟩
    rw [hd0]
    apply List.filterMap_congr
    intro k hk
    simp only [GenerateDataKeys, List.mem_map] at hk
    obtain ⟨q, hq, hkq⟩ := hk
    subst hkq
    rw [MakeDataKey, hev.data]
  · rw [hm22] at hm0
    cases hm0
    exact absurd rfl hst0

theorem loadLoop_spec (g : String) (sid : Nat) (pairs : List (Nat × Nat))
    (st : GSState) (hwf : StoreWF st.store)
    (hpair : ∀ p ∈ pairs, ∀ m, MetaAt st g sid p.1 = some (.meta m) →
      m.sequenceStart = p.2) :
    ∀ rs st2, loadLoop g sid (pairs.map Prod.fst) [] st = (.ok rs, st2) →
      MarkEvolve st st2 ∧ StoreWF st2.store ∧
      List.Sublist (rs.map fun r => (r.batchId, r.sequenceStart)) pairs ∧
      ∀ r ∈ rs, LoopResultFact st st2 g sid r := by
  induction pairs generalizing st with
  | nil =>
    intro rs st2 h
    simp only [List.map_nil, loadLoop] at h
    cases h
    exact ⟨MarkEvolve.refl _, hwf, by simp, by simp⟩
  | cons p rest ih =>
    intro rs st2 h
    simp only [List.map_cons, loadLoop] at h
    split at h
    · simp at h
    · rename_i st1 hm
      have hev1 : MarkEvolve st st1 := MarkBatchAsLoaded_evolve g sid p.1 st false st1 hm
      have hwf1 : StoreWF st1.store := MarkBatchAsLoaded_wf g sid p.1 st false st1 hm hwf
      have hpair1 : ∀ p2 ∈ rest, ∀ m, MetaAt st1 g sid p2.1 = some (.meta m) →
          m.sequenceStart = p2.2 := by
        intro p2 hp2 m hm2
        rcases hev1.meta g sid p2.1 with hsame | ⟨m0, t, hm01, hm02⟩
        · rw [hsame] at hm2
          exact hpair p2 (List.mem_cons_of_mem _ hp2) m hm2
        · rw [hm02] at hm2
          cases hm2
          exact hpair p2 (List.mem_cons_of_mem _ hp2) m0 hm01
      obtain ⟨hevr, hwfr, hsub, hfacts⟩ := ih st1 hwf1 hpair1 rs st2 h
      exact ⟨hev1.trans _ _ _ hevr, hwfr, hsub.cons p,
        loadLoop_transfer st st1 st2 rs g sid hev1 hfacts⟩
    · rename_i st1 hm
      have hev1 : MarkEvolve st st1 := MarkBatchAsLoaded_evolve g sid p.1 st true st1 hm
      have hwf1 : StoreWF st1.store := MarkBatchAsLoaded_wf g sid p.1 st true st1 hm hwf
      have hpair1 : ∀ p2 ∈ rest, ∀ m, MetaAt st1 g sid p2.1 = some (.meta m) →
          m.sequenceStart = p2.2 := by
        intro p2 hp2 m hm2
        rcases hev1.meta g sid p2.1 with hsame | ⟨m0, t, hm01, hm02⟩
        · rw [hsame] at hm2
          exact hpair p2 (List.mem_cons_of_mem _ hp2) m hm2
        · rw [hm02] at hm2
          cases hm2
          exact hpair p2 (List.mem_cons_of_mem _ hp2) m0 hm01
      obtain ⟨m, hget, hnl, hst1⟩ := MarkBatchAsLoaded_true g sid p.1 st st1 hm
      have hget1 : sGet (.batchMetadataKey g sid p.1) st1 =
          some (.meta { m with status := .loaded, loadedAt := st.clock }) := by
        rw [hst1, sGet_sPut, if_pos rfl]
      have hld : LoadBatchData g sid p.1 st1 = .ok (some
          ⟨p.1, (GenerateDataKeys g sid p.1 m.sequenceStart m.sequenceEnd).filterMap
            (fun k => (sGet k st1).map Val.bytes),
            m.sequenceStart, m.sequenceEnd⟩) := by
        simp only [LoadBatchData, GetBatchMetadata, hget1, parseMeta, Except.map]
      split at h
      · rename_i e2 hld2
        rw [hld] at hld2
        cases hld2
      · rename_i hld2
        rw [hld] at hld2
        cases hld2
      · rename_i r0 hld2
        rw [hld] at hld2
        cases hld2
        obtain ⟨hs2eq, hres⟩ := loadLoop_acc g sid (rest.map Prod.fst)
          [⟨p.1, (GenerateDataKeys g sid p.1 m.sequenceStart m.sequenceEnd).filterMap
            (fun k => (sGet k st1).map Val.bytes), m.sequenceStart, m.sequenceEnd⟩] st1
        cases hrec : loadLoop g sid (rest.map Prod.fst) [] st1 with
        | mk res1 stres =>
          rw [hrec] at hs2eq hres
          cases res1 with
          | error e =>
            rw [Prod.ext_iff] at h
            simp only [List.nil_append] at h
            rw [hres] at h
            cases h.1
          | ok rs1 =>
            rw [Prod.ext_iff] at h
            simp only [List.nil_append] at h
            rw [hres] at h
            simp only [Except.map] at h
            obtain ⟨hrs, hst2⟩ := h
            cases hrs
            rw [hs2eq] at hst2
            subst hst2
            obtain ⟨hevr, hwfr, hsub, hfacts⟩ := ih st1 hwf1 hpair1 rs1 stres
              (by rw [hrec])
            have hstart : m.sequenceStart = p.2 := hpair p (List.mem_cons_self _ _) m hget
            refine ⟨hev1.trans _ _ _ hevr, hwfr, ?_, ?_⟩
            · show ((p.1, m.sequenceStart) ::
                List.map (fun r => (r.batchId, r.sequenceStart)) rs1).Sublist (p :: rest)
              rw [hstart]
              exact hsub.cons₂ _
            · intro r2 hr2
              rcases List.mem_cons.mp hr2 with rfl | hr2
              · refine ⟨m, hget, hnl, rfl, rfl, ?_, ?_⟩
                · apply List.filterMap_congr
                  intro k hk
                  simp only [GenerateDataKeys, List.mem_map] at hk
                  obtain ⟨q, hq, hkq⟩ := hk
                  subst hkq
                  rw [MakeDataKey, hev1.data]
                · rcases hevr.meta g sid p.1 with hsame | ⟨m2, t, hm21, hm22⟩
                  · refine ⟨{ m with status := .loaded, loadedAt := st.clock }, ?_, rfl⟩
                    show MetaAt stres g sid p.1 = _
                    rw [hsame]
                    exact hget1
                  · exact ⟨{ m2 with status := .loaded, loadedAt := t }, hm22, rfl⟩
              · exact loadLoop_transfer st st1 stres rs1 g sid hev1 hfacts r2 hr2

theorem mem_scanBatchMetas (g : String) (s : Nat) (st : GSState) (b : Nat) (v : Val) :
    (b, v) ∈ scanBatchMetas g s st ↔ (Key.batchMetadataKey g s b, v) ∈ st.store := by
  simp only [scanBatchMetas]
  rw [List.Perm.mem_iff (List.perm_insertionSort _ _)]
  rw [List.mem_filterMap]
  constructor
  · rintro ⟨kv, hkv, hf⟩
    obtain ⟨k, w⟩ := kv
    cases k with
    | sessionStateKey g2 s2 => cases hf
    | dataKey g2 s2 b2 q2 => cases hf
    | batchMetadataKey g2 s2 b2 =>
      simp only [] at hf
      by_cases hgs : g2 = g ∧ s2 = s
      · rw [if_pos hgs] at hf
        cases hf
        obtain ⟨h1, h2⟩ := hgs
        subst h1
        subst h2
        exact hkv
      · rw [if_neg hgs] at hf
        cases hf
  · intro h
    exact ⟨(Key.batchMetadataKey g s b, v), h, by simp⟩

theorem parsePendingList_ok_mem (l : List (Nat × Val)) (r : List (Nat × Nat))
    (h : parsePendingList l = .ok r) :
    ∀ pr ∈ r, ∃ b0 m, (b0, Val.meta m) ∈ l ∧ m.batchId = pr.1 ∧
      m.sequenceStart = pr.2 ∧ m.status = .pending := by
  induction l generalizing r with
  | nil =>
    simp only [parsePendingList] at h
    cases h
    simp
  | cons hd t ih =>
    obtain ⟨b, v⟩ := hd
    simp only [parsePendingList] at h
    split at h
    · cases h
    · rename_i m hv
      split at h
      · cases h
      · rename_i r2 hrec
        cases h
        have hvm : v = Val.meta m := by
          cases v with
          | meta m2 =>
            simp only [parseMeta] at hv
            cases hv
            rfl
          | sess s0 => cases hv
          | payload d => cases hv
          | corrupt => cases hv
        subst hvm
        by_cases hp : m.status = .pending
        · rw [if_pos hp]
          intro pr hpr
          rcases List.mem_cons.mp hpr with rfl | hpr
          · exact ⟨b, m, List.mem_cons_self _ _, rfl, rfl, hp⟩
          · obtain ⟨b0, m0, hm0, h1, h2, h3⟩ := ih r2 hrec pr hpr
            exact ⟨b0, m0, List.mem_cons_of_mem _ hm0, h1, h2, h3⟩
        · rw [if_neg hp]
          intro pr hpr
          obtain ⟨b0, m0, hm0, h1, h2, h3⟩ := ih r2 hrec pr hpr
          exact ⟨b0, m0, List.mem_cons_of_mem _ hm0, h1, h2, h3⟩

theorem GetLoadableBatches_ok (g : String) (sid n : Nat) (st : GSState)
    (bids : List Nat) (hwf : StoreWF st.store)
    (h : GetLoadableBatches g sid n st = .ok bids) :
    ∃ pairs : List (Nat × Nat),
      bids = pairs.map Prod.fst ∧
      List.Pairwise (fun a b => a.2 ≤ b.2) pairs ∧
      ∀ p ∈ pairs, ∃ m, MetaAt st g sid p.1 = some (.meta m) ∧
        m.sequenceStart = p.2 ∧ m.status = .pending := by
  simp only [GetLoadableBatches] at h
  cases hp : parsePendingList (scanBatchMetas g sid st) with
  | error e =>
    rw [hp] at h
    cases h
  | ok pend =>
    rw [hp] at h
    cases h
    refine ⟨(List.insertionSort (fun a b => a.2 ≤ b.2) pend).take n, rfl, ?_, ?_⟩
    · have htot : ∀ x y : Nat × Nat, x.2 ≤ y.2 ∨ y.2 ≤ x.2 := fun x y => Nat.le_total _ _
      have htrans : ∀ x y z : Nat × Nat, x.2 ≤ y.2 → y.2 ≤ z.2 → x.2 ≤ z.2 :=
        fun x y z h1 h2 => h1.trans h2
      have hsorted := @List.sorted_insertionSort _ _ _ ⟨htot⟩ ⟨htrans⟩ pend
      exact hsorted.sublist (List.take_sublist _ _)
    · intro p hp2
      have hp3 : p ∈ pend := by
        have := (List.take_sublist n _).mem hp2
        exact (List.Perm.mem_iff (List.perm_insertionSort _ _)).mp this
      obtain ⟨b0, m, hmem, h1, h2, h3⟩ :=
        parsePendingList_ok_mem _ _ hp p hp3
      have hstore : (Key.batchMetadataKey g sid b0, Val.meta m) ∈ st.store :=
        (mem_scanBatchMetas g sid st b0 (Val.meta m)).mp hmem
      have hbid : m.batchId = b0 := by
        have := hwf.2 _ hstore
        simpa [entryWF] using this
      have hfind : MetaAt st g sid p.1 = some (.meta m) := by
        rw [MetaAt, sGet, ← h1, hbid]
        exact mem_assocFind _ _ _ hstore hwf.1
      exact ⟨m, hfind, h2, h3⟩

theorem bytes_eq_payloadAt (st : GSState) (hwf : StoreWF st.store)
    (g : String) (s b q : Nat) :
    (sGet (.dataKey g s b q) st).map Val.bytes = payloadAt st g s b q := by
  cases hv : sGet (.dataKey g s b q) st with
  | none => simp [payloadAt, hv]
  | some v =>
    cases v with
    | payload d => simp [payloadAt, hv, Val.bytes]
    | sess s0 =>
      have := hwf.2 _ (assocFind_mem _ _ _ hv)
      simp [entryWF] at this
    | meta m =>
      have := hwf.2 _ (assocFind_mem _ _ _ hv)
      simp [entryWF] at this
    | corrupt =>
      have := hwf.2 _ (assocFind_mem _ _ _ hv)
      simp [entryWF] at this

/-- Claim C5: every completed `LoadBatch` call on a well-formed store
returns its `BatchLoadResult`s ordered by ascending `sequence_start`, and
within each result, `data` is exactly the list of payloads present for the
sequences of the batch's window, in strictly ascending sequence order —
`data[i]` is the payload of the i-th present sequence of
`[sequence_start, sequence_end]`, with missing sequences silently skipped
and no placeholders inserted (`presentData` is a `filterMap` over the
ascending sequence range). -/
theorem C5_loadBatch_ordered (st : GSState) (g : String) (n : Nat)
    (hwf : StoreWF st.store) (rs : List BatchLoadResult) (st2 : GSState)
    (h : LoadBatch g n st = (.ok rs, st2)) :
    List.Pairwise (fun a b => a.sequenceStart ≤ b.sequenceStart) rs ∧
    ∀ sid, assocFind st.groupSessions g = some sid →
      ∀ r ∈ rs, r.data = presentData st g sid r.batchId r.sequenceStart r.sequenceEnd := by
  simp only [LoadBatch] at h
  split at h
  · rename_i hsid
    cases h
    refine ⟨List.Pairwise.nil, ?_⟩
    intro sid hsid2
    rw [hsid] at hsid2
    cases hsid2
  · rename_i sid hsid
    split at h
    · simp [Prod.ext_iff] at h
    · rename_i bids hglb
      split at h
      · cases h
        exact ⟨List.Pairwise.nil, by simp⟩
      · obtain ⟨pairs, hbids, hsorted, hrecs⟩ :=
          GetLoadableBatches_ok g sid n st bids hwf hglb
        subst hbids
        have hpair : ∀ p ∈ pairs, ∀ m, MetaAt st g sid p.1 = some (.meta m) →
            m.sequenceStart = p.2 := by
          intro p hp m hm
          obtain ⟨m2, hm2, hstart, hpend⟩ := hrecs p hp
          rw [hm] at hm2
          cases hm2
          exact hstart
        obtain ⟨hev, hwf2, hsub, hfacts⟩ :=
          loadLoop_spec g sid pairs st hwf hpair rs st2 h
        constructor
        · have hps : List.Pairwise (fun a b : Nat × Nat => a.2 ≤ b.2)
              (rs.map fun r => (r.batchId, r.sequenceStart)) :=
            hsorted.sublist hsub
          rw [List.pairwise_map] at hps
          exact hps
        · intro sid2 hsid2 r hr
          rw [hsid] at hsid2
          cases hsid2
          obtain ⟨m0, hm0, hst0, hs0, he0, hd0, _⟩ := hfacts r hr
          rw [hd0, hs0, he0]
          simp only [presentData, GenerateDataKeys, MakeDataKey, List.filterMap_map]
          apply List.filterMap_congr
          intro q hq
          exact bytes_eq_payloadAt st hwf g sid r.batchId q

/-- Witness for claim C5 at a concrete state: two saves then one load give
one result with data `["a", "b"]` over window `[0, 99]`, trivially
ordered. -/
theorem C5_loadBatch_ordered_witness :
    List.Pairwise (fun a b => a.sequenceStart ≤ b.sequenceStart)
      [(⟨1, ["a", "b"], 0, 99⟩ : BatchLoadResult)] :=
  (C5_loadBatch_ordered
    (runTrace [.initializeSession "g", .save "g" "a", .save "g" "b"]) "g" 100
    (by constructor
        · decide
        · decide)
    [⟨1, ["a", "b"], 0, 99⟩]
    (LoadBatch "g" 100 (runTrace [.initializeSession "g", .save "g" "a", .save "g" "b"])).2
    (Prod.ext_iff.mpr ⟨rfl, rfl⟩)).1

/-- A key that addresses a batch metadata record. -/
def isMetaKey : Key → Bool
  | .batchMetadataKey _ _ _ => true
  | _ => false

theorem numMetas_eq_filter (st : GSState) :
    numMetas st = (st.store.filter fun kv => isMetaKey kv.1).length := by
  have hfun : (fun kv : Key × Val =>
      match kv.1 with
      | Key.batchMetadataKey _ _ _ => true
      | _ => false) = (fun kv : Key × Val => isMetaKey kv.1) := by
    funext kv
    obtain ⟨k, v⟩ := kv
    cases k <;> rfl
  rw [numMetas, hfun]

theorem length_filter_assocSet_key (p : Key → Bool) (l : List (Key × Val))
    (k : Key) (v : Val) :
    ((assocSet l k v).filter fun kv => p kv.1).length =
      (l.filter fun kv => p kv.1).length +
        (if (assocFind l k).isSome = true then 0
         else if p k = true then 1 else 0) := by
  induction l with
  | nil =>
    simp only [assocSet_nil, assocFind_nil, Option.isSome_none,
      List.filter_nil, List.length_nil]
    cases hp : p k <;> simp [List.filter_cons, hp]
  | cons hd t ih =>
    obtain ⟨a, b⟩ := hd
    by_cases hak : a = k
    · subst hak
      simp only [assocSet_cons, if_pos rfl, assocFind_cons, if_pos rfl,
        Option.isSome_some, if_true, Nat.add_zero]
      simp only [List.filter_cons]
      cases hp : p a <;> simp
    · simp only [assocSet_cons, if_neg hak, assocFind_cons, if_neg hak,
        List.filter_cons]
      cases hp : p a <;> simp [ih] <;> omega

theorem numMetas_sPut (k : Key) (v : Val) (st : GSState) :
    numMetas (sPut k v st) = numMetas st +
      (if (assocFind st.store k).isSome = true then 0
       else if isMetaKey k = true then 1 else 0) := by
  rw [numMetas_eq_filter, numMetas_eq_filter, sPut_store]
  exact length_filter_assocSet_key isMetaKey st.store k v

theorem numMetas_sPut_nonmeta (k : Key) (v : Val) (st : GSState)
    (h : isMetaKey k = false) : numMetas (sPut k v st) = numMetas st := by
  rw [numMetas_sPut, h]
  cases hfind : (assocFind st.store k).isSome <;> simp

theorem numMetas_sPut_meta_absent (g2 : String) (s2 b2 : Nat) (v : Val)
    (st : GSState) (h : assocFind st.store (.batchMetadataKey g2 s2 b2) = none) :
    numMetas (sPut (.batchMetadataKey g2 s2 b2) v st) = numMetas st + 1 := by
  rw [numMetas_sPut, h]
  simp [isMetaKey]

theorem GetOrCreateSession_of_some (g : String) (st : GSState) (sid : Nat)
    (h : assocFind st.groupSessions g = some sid) :
    GetOrCreateSession g st = (some sid, st) := by
  simp [GetOrCreateSession, h]

theorem GetOrCreateSession_of_none (g : String) (st : GSState)
    (h : assocFind st.groupSessions g = none) :
    GetOrCreateSession g st =
      (some st.nextUlid,
       { st with
         store := assocSet st.store (.sessionStateKey g st.nextUlid)
           (.sess ⟨st.nextUlid, 0, st.clock, st.clock + 1, .active⟩),
         log := st.log ++ [.putE (.sessionStateKey g st.nextUlid)
           (.sess ⟨st.nextUlid, 0, st.clock, st.clock + 1, .active⟩)],
         smSession := some st.nextUlid, smGroup := g,
         groupSessions := assocSet st.groupSessions g st.nextUlid,
         nextUlid := st.nextUlid + 1, clock := st.clock + 2 }) := by
  have hfind : assocFind (assocSet st.groupSessions g st.nextUlid) g
      = some st.nextUlid := by
    rw [assocFind_assocSet]
    exact if_pos rfl
  simp only [GetOrCreateSession]
  rw [h]
  exact Prod.ext_iff.mpr ⟨hfind, rfl⟩

theorem GetNextSequenceId_of_none (g : String) (st : GSState)
    (h : assocFind st.groupSeqCounters g = none) :
    GetNextSequenceId g st =
      (0, { st with groupSeqCounters := assocSet st.groupSeqCounters g 0 }) := by
  simp [GetNextSequenceId, h]

theorem GetNextSequenceId_of_some (g : String) (st : GSState) (c : Nat)
    (h : assocFind st.groupSeqCounters g = some c) :
    GetNextSequenceId g st =
      (c + 1, { st with groupSeqCounters := assocSet st.groupSeqCounters g (c + 1) }) := by
  simp [GetNextSequenceId, h]

theorem saveFinish_eq (g : String) (sid bid q : Nat) (d : String) (st : GSState) :
    saveFinish g sid bid q d st =
      (true, sPut (.dataKey g sid bid q) (.payload d) st) := by
  rw [saveFinish, GenerateDataKeys_single]

theorem CreateBatch_eq (g : String) (s qs qe : Nat) (st : GSState) :
    CreateBatch g s qs qe st =
      (st.nextUlid,
       sPut (.batchMetadataKey g s st.nextUlid)
         (.meta ⟨st.nextUlid, qs, qe, .pending, st.clock, 0⟩)
         { st with nextUlid := st.nextUlid + 1, clock := st.clock + 1 }) := rfl

theorem div_pred_succ (k B : Nat) (hB : 0 < B) (hk : 1 ≤ k) :
    k / B = (k - 1) / B + (if k % B = 0 then 1 else 0) := by
  obtain ⟨m, rfl⟩ : ∃ m, k = m + 1 := ⟨k - 1, by omega⟩
  simp only [Nat.add_sub_cancel]
  rw [Nat.succ_div]
  have hiff : (m + 1) % B = 0 ↔ B ∣ (m + 1) :=
    ⟨Nat.dvd_of_mod_eq_zero, fun hd => by
      obtain ⟨c, hc⟩ := hd
      rw [hc]
      exact Nat.mul_mod_right B c⟩
  by_cases hd : B ∣ m + 1
  · rw [if_pos hd, if_pos (hiff.mpr hd)]
  · rw [if_neg hd, if_neg (fun hc => hd (hiff.mp hc))]

theorem div_pred_of_mod_eq (k B : Nat) (hB : 0 < B) (hk : 1 ≤ k)
    (h : k % B = 0) : k / B = (k - 1) / B + 1 := by
  have hd := div_pred_succ k B hB hk
  rw [if_pos h] at hd
  omega

theorem div_pred_of_mod_ne (k B : Nat) (hB : 0 < B) (hk : 1 ≤ k)
    (h : k % B ≠ 0) : k / B = (k - 1) / B := by
  have hd := div_pred_succ k B hB hk
  rw [if_neg h] at hd
  omega

/-- Invariant of a trace that fixes the batch size `B` once and then only
saves into group `g`, after `k` such saves: the session (id 0, allocated by
the first save) and sequence counter, exactly which window starts own an
entry of `group_current_batch_ids_` (the multiples `j·B` up to the current
window), how many batch metadata records the store holds, how far the id
supply has advanced, and that every stored batch id is older than the
supply. -/
structure SInv (B : Nat) (g : String) (k : Nat) (st : GSState) : Prop where
  bsz : st.defaultBatchSize = B
  sess : assocFind st.groupSessions g = if k = 0 then none else some 0
  ctr : assocFind st.groupSeqCounters g = if k = 0 then none else some (k - 1)
  bmap : ∀ w : Nat, (assocFind st.groupCurrentBatchIds (g, w)).isSome = true ↔
    (1 ≤ k ∧ ∃ j, w = j * B ∧ j ≤ (k - 1) / B)
  metas : numMetas st = if k = 0 then 0 else (k - 1) / B + 1
  ulid : st.nextUlid = if k = 0 then 0 else (k - 1) / B + 2
  fresh : ∀ g2 s2 b2, (MetaAt st g2 s2 b2).isSome = true → b2 < st.nextUlid

theorem SInv_base (B : Nat) (g : String) :
    SInv B g 0 (SetBatchSize B initState) := by
  refine ⟨rfl, rfl, rfl, ?_, rfl, rfl, ?_⟩
  · intro w
    simp [SetBatchSize, initState]
  · intro g2 s2 b2 h
    simp [MetaAt, sGet, SetBatchSize, initState] at h

theorem SInv_step (B : Nat) (g : String) (d : String) (k : Nat) (st : GSState)
    (hB : 0 < B) (hI : SInv B g k st) :
    SInv B g (k + 1) (Save g d st).2 ∧
      numMetas (Save g d st).2 = numMetas st + (if k % B = 0 then 1 else 0) := by
  by_cases hk : k = 0
  · subst hk
    have hsess : assocFind st.groupSessions g = none := by
      have h0 := hI.sess
      rwa [if_pos rfl] at h0
    have hctr : assocFind st.groupSeqCounters g = none := by
      have h0 := hI.ctr
      rwa [if_pos rfl] at h0
    have hu : st.nextUlid = 0 := by
      have h0 := hI.ulid
      rwa [if_pos rfl] at h0
    have hm0 : numMetas st = 0 := by
      have h0 := hI.metas
      rwa [if_pos rfl] at h0
    have hS : Save g d st = saveWithSession g st.nextUlid d
        { st with
          store := assocSet st.store (Key.sessionStateKey g st.nextUlid)
            (Val.sess ⟨st.nextUlid, 0, st.clock, st.clock + 1, .active⟩),
          log := st.log ++ [Ev.putE (Key.sessionStateKey g st.nextUlid)
            (Val.sess ⟨st.nextUlid, 0, st.clock, st.clock + 1, .active⟩)],
          smSession := some st.nextUlid, smGroup := g,
          groupSessions := assocSet st.groupSessions g st.nextUlid,
          nextUlid := st.nextUlid + 1, clock := st.clock + 1 + 1 } := by
      simp only [Save, GetOrCreateSession, hsess, InitializeSession, smInitializeSession,
        ulidGenerate, ulidNow, sPut, if_true, Option.getD_some]
      rw [assocFind_assocSet]
      simp
    have hctrI : assocFind
        ({ st with
          store := assocSet st.store (Key.sessionStateKey g st.nextUlid)
            (Val.sess ⟨st.nextUlid, 0, st.clock, st.clock + 1, .active⟩),
          log := st.log ++ [Ev.putE (Key.sessionStateKey g st.nextUlid)
            (Val.sess ⟨st.nextUlid, 0, st.clock, st.clock + 1, .active⟩)],
          smSession := some st.nextUlid, smGroup := g,
          groupSessions := assocSet st.groupSessions g st.nextUlid,
          nextUlid := st.nextUlid + 1, clock := st.clock + 1 + 1 } : GSState).groupSeqCounters
        g = none := hctr
    have hmap0 : assocFind st.groupCurrentBatchIds (g, 0) = none := by
      cases hfind : assocFind st.groupCurrentBatchIds (g, 0) with
      | none => rfl
      | some bid =>
        have h2 := (hI.bmap 0).mp (by rw [hfind]; rfl)
        omega
    have habs : assocFind st.store (Key.batchMetadataKey g st.nextUlid (st.nextUlid + 1))
        = none := by
      cases hfind : assocFind st.store (Key.batchMetadataKey g st.nextUlid (st.nextUlid + 1)) with
      | none => rfl
      | some v =>
        have hsome : (MetaAt st g st.nextUlid (st.nextUlid + 1)).isSome = true := by
          rw [MetaAt, sGet, hfind]
          rfl
        have h2 := hI.fresh g st.nextUlid (st.nextUlid + 1) hsome
        omega
    have habs2 : assocFind (assocSet st.store (Key.sessionStateKey g st.nextUlid)
        (Val.sess ⟨st.nextUlid, 0, st.clock, st.clock + 1, .active⟩))
        (Key.batchMetadataKey g st.nextUlid (st.nextUlid + 1)) = none := by
      rw [assocFind_assocSet, if_neg (by simp)]
      exact habs
    rw [hS]
    simp only [saveWithSession]
    rw [GetNextSequenceId_of_none g _ hctrI]
    dsimp only
    rw [hI.bsz, Nat.zero_div, Nat.zero_mul, hmap0]
    rw [CreateBatch_eq]
    dsimp only
    rw [saveFinish_eq]
    dsimp only
    have hzB : (0 + 1 - 1) / B = 0 := by simp
    refine ⟨⟨?_, ?_, ?_, ?_, ?_, ?_, ?_⟩, ?_⟩
    · rfl
    · dsimp only [sPut_groupSessions]
      rw [if_neg (Nat.succ_ne_zero _), assocFind_assocSet, if_pos rfl, hu]
    · dsimp only [sPut_groupSeqCounters]
      rw [if_neg (Nat.succ_ne_zero _), assocFind_assocSet, if_pos rfl]
    · intro w
      dsimp only [sPut_groupCurrentBatchIds]
      rw [assocFind_assocSet]
      by_cases hw : ((g : String), (0 : Nat)) = (g, w)
      · rw [if_pos hw]
        have hww : w = 0 := by
          injection hw with h1 h2
          exact h2.symm
        constructor
        · intro _
          exact ⟨Nat.le_refl 1, 0, by rw [hww, Nat.zero_mul], by omega⟩
        · intro _
          rfl
      · rw [if_neg hw, hI.bmap w]
        constructor
        · rintro ⟨h1, -⟩
          omega
        · rintro ⟨-, j, rfl, hj⟩
          rw [hzB] at hj
          have hj0 : j = 0 := Nat.le_zero.mp hj
          exact absurd (by rw [hj0, Nat.zero_mul]) hw
    · rw [if_neg (Nat.succ_ne_zero _), hzB, numMetas_eq_filter]
      dsimp only [sPut_store]
      rw [length_filter_assocSet_key, length_filter_assocSet_key,
        length_filter_assocSet_key, ← numMetas_eq_filter]
      rw [habs2]
      simp only [Option.isSome_none, Bool.false_eq_true, if_false, isMetaKey, if_true,
        ite_self, Nat.add_zero]
      omega
    · dsimp only [sPut_nextUlid]
      rw [if_neg (Nat.succ_ne_zero _), hzB]
      omega
    · intro g2 s2 b2 h
      dsimp only [MetaAt, sGet, sPut_store, sPut_nextUlid] at h ⊢
      rw [assocFind_assocSet, if_neg (by simp), assocFind_assocSet] at h
      by_cases hkey : Key.batchMetadataKey g st.nextUlid (st.nextUlid + 1)
          = Key.batchMetadataKey g2 s2 b2
      · injection hkey with e1 e2 e3
        omega
      · rw [if_neg hkey, assocFind_assocSet, if_neg (by simp)] at h
        have h2 := hI.fresh g2 s2 b2 h
        omega
    · rw [if_pos (Nat.zero_mod B), numMetas_eq_filter]
      dsimp only [sPut_store]
      rw [length_filter_assocSet_key, length_filter_assocSet_key,
        length_filter_assocSet_key, ← numMetas_eq_filter]
      rw [habs2]
      simp only [Option.isSome_none, Bool.false_eq_true, if_false, isMetaKey, if_true,
        ite_self, Nat.add_zero]
  · have hk' : 1 ≤ k := by omega
    have hsess : assocFind st.groupSessions g = some 0 := by
      have h0 := hI.sess
      rwa [if_neg hk] at h0
    have hctr : assocFind st.groupSeqCounters g = some (k - 1) := by
      have h0 := hI.ctr
      rwa [if_neg hk] at h0
    have hmv : numMetas st = (k - 1) / B + 1 := by
      have h0 := hI.metas
      rwa [if_neg hk] at h0
    have huv : st.nextUlid = (k - 1) / B + 2 := by
      have h0 := hI.ulid
      rwa [if_neg hk] at h0
    have hS : Save g d st = saveWithSession g 0 d st := by
      simp only [Save, GetOrCreateSession, hsess]
    rw [hS]
    simp only [saveWithSession]
    rw [GetNextSequenceId_of_some g st (k - 1) hctr]
    dsimp only
    have hk1 : k - 1 + 1 = k := by omega
    rw [hk1, hI.bsz]
    split
    · rename_i heq
      have hmod : k % B = 0 := by
        by_contra hmod0
        have hdiv0 := div_pred_of_mod_ne k B hB hk' hmod0
        have h2 : (assocFind st.groupCurrentBatchIds (g, k / B * B)).isSome = true :=
          (hI.bmap (k / B * B)).mpr ⟨hk', k / B, rfl, by omega⟩
        rw [heq] at h2
        simp at h2
      have hdiv := div_pred_of_mod_eq k B hB hk' hmod
      have habs : assocFind st.store (Key.batchMetadataKey g 0 st.nextUlid) = none := by
        cases hfind : assocFind st.store (Key.batchMetadataKey g 0 st.nextUlid) with
        | none => rfl
        | some v =>
          have hsome : (MetaAt st g 0 st.nextUlid).isSome = true := by
            rw [MetaAt, sGet, hfind]
            rfl
          have h2 := hI.fresh g 0 st.nextUlid hsome
          omega
      rw [CreateBatch_eq]
      dsimp only
      rw [saveFinish_eq]
      dsimp only
      refine ⟨⟨?_, ?_, ?_, ?_, ?_, ?_, ?_⟩, ?_⟩
      · rfl
      · dsimp only [sPut_groupSessions]
        rw [if_neg (Nat.succ_ne_zero _)]
        exact hsess
      · dsimp only [sPut_groupSeqCounters]
        rw [if_neg (Nat.succ_ne_zero _), assocFind_assocSet, if_pos rfl]
        simp only [Nat.add_sub_cancel]
      · intro w
        dsimp only [sPut_groupCurrentBatchIds]
        rw [assocFind_assocSet]
        simp only [Nat.add_sub_cancel]
        by_cases hw : (g, k / B * B) = (g, w)
        · rw [if_pos hw]
          have hww : w = k / B * B := by
            injection hw with h1 h2
            exact h2.symm
          constructor
          · intro _
            exact ⟨by omega, k / B, hww, Nat.le_refl _⟩
          · intro _
            rfl
        · rw [if_neg hw, hI.bmap w]
          constructor
          · rintro ⟨-, j, rfl, hj⟩
            exact ⟨by omega, j, rfl, by omega⟩
          · rintro ⟨-, j, rfl, hj⟩
            have hj2 : j ≠ k / B := fun he => hw (by rw [he])
            exact ⟨hk', j, rfl, by omega⟩
      · rw [if_neg (Nat.succ_ne_zero _), numMetas_eq_filter]
        dsimp only [sPut_store]
        rw [length_filter_assocSet_key, length_filter_assocSet_key, ← numMetas_eq_filter]
        rw [habs]
        simp only [Option.isSome_none, Bool.false_eq_true, if_false, isMetaKey, if_true,
          ite_self, Nat.add_zero, Nat.add_sub_cancel]
        omega
      · dsimp only [sPut_nextUlid]
        rw [if_neg (Nat.succ_ne_zero _)]
        simp only [Nat.add_sub_cancel]
        omega
      · intro g2 s2 b2 h
        dsimp only [MetaAt, sGet, sPut_store, sPut_nextUlid] at h ⊢
        rw [assocFind_assocSet, if_neg (by simp), assocFind_assocSet] at h
        by_cases hkey : Key.batchMetadataKey g 0 st.nextUlid
            = Key.batchMetadataKey g2 s2 b2
        · injection hkey with e1 e2 e3
          omega
        · rw [if_neg hkey] at h
          have h2 := hI.fresh g2 s2 b2 h
          omega
      · rw [if_pos hmod, numMetas_eq_filter]
        dsimp only [sPut_store]
        rw [length_filter_assocSet_key, length_filter_assocSet_key, ← numMetas_eq_filter]
        rw [habs]
        simp only [Option.isSome_none, Bool.false_eq_true, if_false, isMetaKey, if_true,
          ite_self, Nat.add_zero]
    · rename_i bid heq
      have hmod : k % B ≠ 0 := by
        intro hmod0
        have hdiv0 := div_pred_of_mod_eq k B hB hk' hmod0
        have h2 := (hI.bmap (k / B * B)).mp (by rw [heq]; rfl)
        obtain ⟨-, j, hj1, hj2⟩ := h2
        have hjk := Nat.eq_of_mul_eq_mul_right hB hj1
        omega
      have hdiv := div_pred_of_mod_ne k B hB hk' hmod
      rw [saveFinish_eq]
      dsimp only
      refine ⟨⟨?_, ?_, ?_, ?_, ?_, ?_, ?_⟩, ?_⟩
      · rfl
      · dsimp only [sPut_groupSessions]
        rw [if_neg (Nat.succ_ne_zero _)]
        exact hsess
      · dsimp only [sPut_groupSeqCounters]
        rw [if_neg (Nat.succ_ne_zero _), assocFind_assocSet, if_pos rfl]
        simp only [Nat.add_sub_cancel]
      · intro w
        dsimp only [sPut_groupCurrentBatchIds]
        rw [hI.bmap w]
        simp only [Nat.add_sub_cancel]
        constructor
        · rintro ⟨h1, j, rfl, hj⟩
          exact ⟨by omega, j, rfl, by omega⟩
        · rintro ⟨-, j, rfl, hj⟩
          exact ⟨hk', j, rfl, by omega⟩
      · rw [if_neg (Nat.succ_ne_zero _), numMetas_eq_filter]
        dsimp only [sPut_store]
        rw [length_filter_assocSet_key, ← numMetas_eq_filter]
        simp only [isMetaKey, Bool.false_eq_true, if_false, ite_self, Nat.add_zero,
          Nat.add_sub_cancel]
        omega
      · dsimp only [sPut_nextUlid]
        rw [if_neg (Nat.succ_ne_zero _)]
        simp only [Nat.add_sub_cancel]
        omega
      · intro g2 s2 b2 h
        dsimp only [MetaAt, sGet, sPut_store, sPut_nextUlid] at h ⊢
        rw [assocFind_assocSet, if_neg (by simp)] at h
        exact hI.fresh g2 s2 b2 h
      · rw [if_neg hmod, numMetas_eq_filter]
        dsimp only [sPut_store]
        rw [length_filter_assocSet_key, ← numMetas_eq_filter]
        simp only [isMetaKey, Bool.false_eq_true, if_false, ite_self, Nat.add_zero]

theorem runFrom_append (st : GSState) (l1 l2 : List Op) :
    runFrom st (l1 ++ l2) = runFrom (runFrom st l1) l2 := by
  induction l1 generalizing st with
  | nil => rfl
  | cons o t ih =>
    simp only [List.cons_append, runFrom]
    exact ih _

theorem stateAt_savesTrace_succ (B : Nat) (g : String) (ds : List String) (k : Nat)
    (hk : k < ds.length) :
    stateAt (savesTrace B g ds) (k + 1 + 1) =
      (Save g ds[k] (stateAt (savesTrace B g ds) (k + 1))).2 := by
  simp only [stateAt, savesTrace, List.take_succ_cons]
  rw [List.take_succ]
  rw [List.getElem?_map, List.getElem?_eq_getElem hk]
  dsimp only [Option.map, Option.toList]
  simp only [runFrom]
  rw [runFrom_append]
  simp only [runFrom, step]

theorem SInv_savesTrace (B : Nat) (g : String) (ds : List String) (hB : 0 < B) :
    ∀ k, k ≤ ds.length → SInv B g k (stateAt (savesTrace B g ds) (k + 1)) := by
  intro k
  induction k with
  | zero =>
    intro _
    exact SInv_base B g
  | succ m ih =>
    intro hm
    have h1 := ih (by omega)
    have hm2 : m < ds.length := by omega
    have h2 := SInv_step B g ds[m] m _ hB h1
    rw [stateAt_savesTrace_succ B g ds m hm2]
    exact h2.1

/-- Claim C9 (corrected): on a trace that sets the batch size `B` once up
front and then only saves into group `g`, the save that allocates sequence
`n` (the `n+1`-st operation) creates a new PENDING batch record iff
`n % B = 0`, including the very first save; the general claim's iff needs
this fixed-batch-size premise, since resizing between saves breaks it
(`C9_counterexample_shrink_creates_batch`). -/
theorem C9_window_boundary_fixed_batch_size (B : Nat) (g : String)
    (ds : List String) (n : Nat) (hB : 0 < B) (hn : n < ds.length) :
    CreatesNewBatch (savesTrace B g ds) (n + 1) ↔ n % B = 0 := by
  have hstep := SInv_step B g ds[n] n _ hB
    (SInv_savesTrace B g ds hB n (by omega))
  have hnum := hstep.2
  rw [← stateAt_savesTrace_succ B g ds n hn] at hnum
  rw [CreatesNewBatch]
  rw [hnum]
  by_cases hmod : n % B = 0
  · rw [if_pos hmod]
    exact ⟨fun _ => hmod, fun _ => rfl⟩
  · rw [if_neg hmod]
    exact ⟨fun h => absurd h (by omega), fun h => absurd h hmod⟩

/-- Apply a list of upserts in order (the direct puts an operation
performs, outside any write batch). -/
def assocSetAll (layers : List (Key × Val)) (l : List (Key × Val)) :
    List (Key × Val) :=
  layers.foldl (fun s kv => assocSet s kv.1 kv.2) l

theorem assocSetAll_cons (kv : Key × Val) (layers : List (Key × Val))
    (l : List (Key × Val)) :
    assocSetAll (kv :: layers) l = assocSetAll layers (assocSet l kv.1 kv.2) := rfl

theorem assocFind_assocSetAll (layers : List (Key × Val)) (l : List (Key × Val))
    (z : Key) :
    assocFind (assocSetAll layers l) z = assocFind l z ∨
    ∃ v, (z, v) ∈ layers ∧ assocFind (assocSetAll layers l) z = some v := by
  induction layers generalizing l with
  | nil => exact Or.inl rfl
  | cons kv t ih =>
    obtain ⟨k, v⟩ := kv
    rw [assocSetAll_cons]
    rcases ih (assocSet l k v) with h | ⟨v2, hv2, h⟩
    · by_cases hkz : k = z
      · subst hkz
        right
        exact ⟨v, List.mem_cons_self _ _, by rw [h, assocFind_assocSet, if_pos rfl]⟩
      · left
        rw [h, assocFind_assocSet, if_neg hkz]
    · right
      exact ⟨v2, List.mem_cons_of_mem _ hv2, h⟩

theorem nodup_assocSetAll (layers : List (Key × Val)) (l : List (Key × Val))
    (hnd : (l.map Prod.fst).Nodup) :
    ((assocSetAll layers l).map Prod.fst).Nodup := by
  induction layers generalizing l with
  | nil => exact hnd
  | cons kv t ih => exact ih _ (nodup_assocSet _ _ _ hnd)

theorem mem_assocSetAll (layers : List (Key × Val)) (l : List (Key × Val))
    (kv : Key × Val) (h : kv ∈ assocSetAll layers l) :
    kv ∈ layers ∨ kv ∈ l := by
  induction layers generalizing l with
  | nil => exact Or.inr h
  | cons kv2 t ih =>
    obtain ⟨k2, v2⟩ := kv2
    rcases ih _ h with h2 | h2
    · exact Or.inl (List.mem_cons_of_mem _ h2)
    · rcases mem_assocSet _ _ _ _ h2 with h3 | h3
      · left
        rw [h3]
        exact List.mem_cons_self _ _
      · exact Or.inr h3

theorem assocErase_sublist [DecidableEq α] (l : List (α × β)) (x : α) :
    List.Sublist (assocErase l x) l := by
  induction l with
  | nil => simp
  | cons hd t ih =>
    obtain ⟨a, b⟩ := hd
    simp only [assocErase_cons]
    by_cases hax : a = x
    · rw [if_pos hax]
      exact List.sublist_cons_self _ _
    · rw [if_neg hax]
      exact ih.cons₂ _

theorem applyWOps_nodup (ops : List WOp) (l : List (Key × Val))
    (hnd : (l.map Prod.fst).Nodup) : ((applyWOps ops l).map Prod.fst).Nodup := by
  induction ops generalizing l with
  | nil => exact hnd
  | cons op t ih =>
    cases op with
    | put k v => exact ih _ (nodup_assocSet _ _ _ hnd)
    | del k => exact ih _ (hnd.sublist ((assocErase_sublist l k).map Prod.fst))

theorem applyWOps_mem (ops : List WOp) (l : List (Key × Val)) (kv : Key × Val)
    (h : kv ∈ applyWOps ops l) :
    kv ∈ l ∨ WOp.put kv.1 kv.2 ∈ ops := by
  induction ops generalizing l with
  | nil => exact Or.inl h
  | cons op t ih =>
    cases op with
    | put k v =>
      rcases ih _ h with h2 | h2
      · rcases mem_assocSet _ _ _ _ h2 with h3 | h3
        · right
          subst h3
          exact List.mem_cons_self _ _
        · exact Or.inl h3
      · exact Or.inr (List.mem_cons_of_mem _ h2)
    | del k =>
      rcases ih _ h with h2 | h2
      · exact Or.inl ((assocErase_sublist l k).subset h2)
      · exact Or.inr (List.mem_cons_of_mem _ h2)

theorem applyWOps_find_cases (ops : List WOp) (l : List (Key × Val))
    (hnd : (l.map Prod.fst).Nodup) (z : Key) :
    assocFind (applyWOps ops l) z = assocFind l z ∨
    assocFind (applyWOps ops l) z = none ∨
    ∃ v, WOp.put z v ∈ ops ∧ assocFind (applyWOps ops l) z = some v := by
  induction ops generalizing l with
  | nil => exact Or.inl rfl
  | cons op t ih =>
    cases op with
    | put k v =>
      simp only [applyWOps]
      rcases ih (assocSet l k v) (nodup_assocSet _ _ _ hnd) with h | h | ⟨v2, hv2, h⟩
      · by_cases hkz : k = z
        · subst hkz
          right; right
          exact ⟨v, List.mem_cons_self _ _, by rw [h, assocFind_assocSet, if_pos rfl]⟩
        · left
          rw [h, assocFind_assocSet, if_neg hkz]
      · right; left
        exact h
      · right; right
        exact ⟨v2, List.mem_cons_of_mem _ hv2, h⟩
    | del k =>
      simp only [applyWOps]
      have hnd2 := hnd.sublist ((assocErase_sublist l k).map Prod.fst)
      rcases ih (assocErase l k) hnd2 with h | h | ⟨v2, hv2, h⟩
      · by_cases hkz : k = z
        · subst hkz
          right; left
          rw [h, assocFind_assocErase l hnd _ _, if_pos rfl]
        · left
          rw [h, assocFind_assocErase l hnd _ _, if_neg hkz]
      · right; left
        exact h
      · right; right
        exact ⟨v2, List.mem_cons_of_mem _ hv2, h⟩

theorem eq_of_mem_of_length_le_one {α : Type} {l : List α} (h : l.length ≤ 1)
    {a b : α} (ha : a ∈ l) (hb : b ∈ l) : a = b := by
  cases l with
  | nil => cases ha
  | cons x t =>
    cases t with
    | nil =>
      rw [List.mem_singleton] at ha hb
      rw [ha, hb]
    | cons y t2 =>
      simp only [List.length_cons] at h
      omega

theorem TraceInv_layers (R : List Nat) (st st2 : GSState)
    (layers : List (Key × Val)) (hI : TraceInv R st)
    (hstore : st2.store = assocSetAll layers st.store)
    (hwb : st2.wbatch = none)
    (hle : st.nextUlid ≤ st2.nextUlid)
    (hlay : ∀ kv ∈ layers, entryWF kv = true ∧
      ∀ g2 s2 b2, kv.1 = Key.batchMetadataKey g2 s2 b2 →
        st.nextUlid ≤ b2 ∧ b2 < st2.nextUlid)
    (hone : (layers.filter fun kv => isMetaKey kv.1).length ≤ 1) :
    TraceInv R st2 := by
  refine ⟨hwb, ⟨?_, ?_⟩, ?_, ?_, ?_, ?_⟩
  · rw [hstore]
    exact nodup_assocSetAll _ _ hI.wf.1
  · intro kv hkv
    rw [hstore] at hkv
    rcases mem_assocSetAll _ _ _ hkv with h | h
    · exact (hlay kv h).1
    · exact hI.wf.2 kv h
  · intro g2 s2 b2 hsome
    have hfind : (assocFind st2.store (Key.batchMetadataKey g2 s2 b2)).isSome = true :=
      hsome
    rw [hstore] at hfind
    rcases assocFind_assocSetAll layers st.store (Key.batchMetadataKey g2 s2 b2) with
      h | ⟨v, hv, h⟩
    · rw [h] at hfind
      have h2 := hI.fresh g2 s2 b2 hfind
      omega
    · have h2 := (hlay _ hv).2 g2 s2 b2 rfl
      omega
  · intro g1 s1 g2 s2 b hs1 hs2
    have hf1 : (assocFind (assocSetAll layers st.store)
        (Key.batchMetadataKey g1 s1 b)).isSome = true := by
      rw [← hstore]
      exact hs1
    have hf2 : (assocFind (assocSetAll layers st.store)
        (Key.batchMetadataKey g2 s2 b)).isSome = true := by
      rw [← hstore]
      exact hs2
    rcases assocFind_assocSetAll layers st.store (Key.batchMetadataKey g1 s1 b) with
      h1 | ⟨v1, hv1, h1⟩
    · rcases assocFind_assocSetAll layers st.store (Key.batchMetadataKey g2 s2 b) with
        h2 | ⟨v2, hv2, h2⟩
      · rw [h1] at hf1
        rw [h2] at hf2
        exact hI.uniq g1 s1 g2 s2 b hf1 hf2
      · rw [h1] at hf1
        have ho := hI.fresh g1 s1 b hf1
        have hn := (hlay _ hv2).2 g2 s2 b rfl
        omega
    · rcases assocFind_assocSetAll layers st.store (Key.batchMetadataKey g2 s2 b) with
        h2 | ⟨v2, hv2, h2⟩
      · rw [h2] at hf2
        have ho := hI.fresh g2 s2 b hf2
        have hn := (hlay _ hv1).2 g1 s1 b rfl
        omega
      · have hmem1 : ((Key.batchMetadataKey g1 s1 b : Key), v1) ∈
            layers.filter (fun kv => isMetaKey kv.1) :=
          List.mem_filter.mpr ⟨hv1, rfl⟩
        have hmem2 : ((Key.batchMetadataKey g2 s2 b : Key), v2) ∈
            layers.filter (fun kv => isMetaKey kv.1) :=
          List.mem_filter.mpr ⟨hv2, rfl⟩
        have heq := eq_of_mem_of_length_le_one hone hmem1 hmem2
        have hkeys : (Key.batchMetadataKey g1 s1 b : Key) =
            Key.batchMetadataKey g2 s2 b := congrArg Prod.fst heq
        injection hkeys with e1 e2 e3
        exact ⟨e1, e2⟩
  · intro b hb
    have h2 := hI.rlt b hb
    omega
  · intro b hb g2 s2 m hm
    have hfind : assocFind st2.store (Key.batchMetadataKey g2 s2 b) =
        some (Val.meta m) := hm
    rw [hstore] at hfind
    rcases assocFind_assocSetAll layers st.store (Key.batchMetadataKey g2 s2 b) with
      h | ⟨v, hv, h⟩
    · rw [hfind] at h
      exact hI.rloaded b hb g2 s2 m h.symm
    · have hn := (hlay _ hv).2 g2 s2 b rfl
      have h2 := hI.rlt b hb
      omega

theorem TraceInv_wops (R : List Nat) (st st2 : GSState) (ops : List WOp)
    (hI : TraceInv R st)
    (hstore : st2.store = applyWOps ops st.store)
    (hwb : st2.wbatch = none)
    (hulid : st2.nextUlid = st.nextUlid)
    (hops : ∀ k v, WOp.put k v ∈ ops → entryWF (k, v) = true ∧ isMetaKey k = false) :
    TraceInv R st2 := by
  refine ⟨hwb, ⟨?_, ?_⟩, ?_, ?_, ?_, ?_⟩
  · rw [hstore]
    exact applyWOps_nodup _ _ hI.wf.1
  · intro kv hkv
    rw [hstore] at hkv
    rcases applyWOps_mem _ _ _ hkv with h | h
    · exact hI.wf.2 kv h
    · exact (hops kv.1 kv.2 h).1
  · intro g2 s2 b2 hsome
    have hfind : (assocFind st2.store (Key.batchMetadataKey g2 s2 b2)).isSome = true :=
      hsome
    rw [hstore] at hfind
    rcases applyWOps_find_cases ops st.store hI.wf.1 (Key.batchMetadataKey g2 s2 b2)
      with h | h | ⟨v, hv, h⟩
    · rw [h] at hfind
      have h2 := hI.fresh g2 s2 b2 hfind
      omega
    · rw [h] at hfind
      simp at hfind
    · have h2 := (hops _ _ hv).2
      simp [isMetaKey] at h2
  · intro g1 s1 g2 s2 b hs1 hs2
    have hf1 : (assocFind (applyWOps ops st.store)
        (Key.batchMetadataKey g1 s1 b)).isSome = true := by
      rw [← hstore]
      exact hs1
    have hf2 : (assocFind (applyWOps ops st.store)
        (Key.batchMetadataKey g2 s2 b)).isSome = true := by
      rw [← hstore]
      exact hs2
    rcases applyWOps_find_cases ops st.store hI.wf.1 (Key.batchMetadataKey g1 s1 b)
      with h1 | h1 | ⟨v1, hv1, h1⟩
    · rcases applyWOps_find_cases ops st.store hI.wf.1 (Key.batchMetadataKey g2 s2 b)
        with h2 | h2 | ⟨v2, hv2, h2⟩
      · rw [h1] at hf1
        rw [h2] at hf2
        exact hI.uniq g1 s1 g2 s2 b hf1 hf2
      · rw [h2] at hf2
        simp at hf2
      · have h3 := (hops _ _ hv2).2
        simp [isMetaKey] at h3
    · rw [h1] at hf1
      simp at hf1
    · have h3 := (hops _ _ hv1).2
      simp [isMetaKey] at h3
  · intro b hb
    have h2 := hI.rlt b hb
    omega
  · intro b hb g2 s2 m hm
    have hfind : assocFind st2.store (Key.batchMetadataKey g2 s2 b) =
        some (Val.meta m) := hm
    rw [hstore] at hfind
    rcases applyWOps_find_cases ops st.store hI.wf.1 (Key.batchMetadataKey g2 s2 b)
      with h | h | ⟨v, hv, h⟩
    · rw [hfind] at h
      exact hI.rloaded b hb g2 s2 m h.symm
    · rw [h] at hfind
      cases hfind
    · have h2 := (hops _ _ hv).2
      simp [isMetaKey] at h2

@[simp] theorem GetNextSequenceId_store (g : String) (st : GSState) :
    (GetNextSequenceId g st).2.store = st.store := by
  simp only [GetNextSequenceId]
  split <;> rfl

@[simp] theorem GetNextSequenceId_wbatch (g : String) (st : GSState) :
    (GetNextSequenceId g st).2.wbatch = st.wbatch := by
  simp only [GetNextSequenceId]
  split <;> rfl

@[simp] theorem GetNextSequenceId_nextUlid (g : String) (st : GSState) :
    (GetNextSequenceId g st).2.nextUlid = st.nextUlid := by
  simp only [GetNextSequenceId]
  split <;> rfl

@[simp] theorem GetNextSequenceId_clock (g : String) (st : GSState) :
    (GetNextSequenceId g st).2.clock = st.clock := by
  simp only [GetNextSequenceId]
  split <;> rfl

@[simp] theorem CreateBatch_wbatch (g : String) (s qs qe : Nat) (st : GSState) :
    (CreateBatch g s qs qe st).2.wbatch = st.wbatch := rfl

@[simp] theorem CreateBatch_nextUlid (g : String) (s qs qe : Nat) (st : GSState) :
    (CreateBatch g s qs qe st).2.nextUlid = st.nextUlid + 1 := rfl

theorem foldl_sDeleteFromBatch_wbatch (keys : List Key) (st : GSState)
    (ops : List WOp) (h : st.wbatch = some ops) :
    ∃ lg, (keys.foldl (fun acc k => sDeleteFromBatch k acc) st) =
      { st with wbatch := some (ops ++ keys.map WOp.del), log := st.log ++ lg } := by
  induction keys generalizing st ops with
  | nil =>
    refine ⟨[], ?_⟩
    rw [List.map_nil, List.append_nil, List.append_nil, ← h]
    rfl
  | cons k t ih =>
    rw [List.foldl_cons]
    have hstep : sDeleteFromBatch k st =
        { st with wbatch := some (ops ++ [WOp.del k]),
                  log := st.log ++ [Ev.delFromBatchE k] } := by
      simp only [sDeleteFromBatch, h]
    rw [hstep]
    obtain ⟨lg, hrec⟩ := ih
      { st with wbatch := some (ops ++ [WOp.del k]),
                log := st.log ++ [Ev.delFromBatchE k] } (ops ++ [WOp.del k]) rfl
    refine ⟨Ev.delFromBatchE k :: lg, ?_⟩
    rw [hrec]
    simp [List.append_assoc]

theorem putPairs_wbatch (prs : List (Key × String)) (st : GSState)
    (ops : List WOp) (h : st.wbatch = some ops) :
    ∃ lg, putPairs prs st =
      { st with
        wbatch := some (ops ++ prs.map fun pr => WOp.put pr.1 (Val.payload pr.2)),
        log := st.log ++ lg } := by
  induction prs generalizing st ops with
  | nil =>
    refine ⟨[], ?_⟩
    rw [List.map_nil, List.append_nil, List.append_nil, ← h]
    rfl
  | cons pr t ih =>
    obtain ⟨k, d⟩ := pr
    simp only [putPairs]
    have hstep : sPutToBatch k (Val.payload d) st =
        { st with wbatch := some (ops ++ [WOp.put k (Val.payload d)]),
                  log := st.log ++ [Ev.putToBatchE k (Val.payload d)] } := by
      simp only [sPutToBatch, h]
    rw [hstep]
    obtain ⟨lg, hrec⟩ := ih
      { st with wbatch := some (ops ++ [WOp.put k (Val.payload d)]),
                log := st.log ++ [Ev.putToBatchE k (Val.payload d)] }
      (ops ++ [WOp.put k (Val.payload d)]) rfl
    refine ⟨Ev.putToBatchE k (Val.payload d) :: lg, ?_⟩
    rw [hrec]
    simp [List.append_assoc]

theorem bmAcknowledgeBatch_open (g : String) (s b : Nat) (st : GSState)
    (ops : List WOp) (h : st.wbatch = some ops) :
    bmAcknowledgeBatch g s b st = (false, st) := by
  simp only [bmAcknowledgeBatch]
  cases hget : sGet (.batchMetadataKey g s b) st with
  | none => rfl
  | some v =>
    cases v with
    | sess s0 => rfl
    | payload d => rfl
    | corrupt => rfl
    | meta m =>
      simp only [sBeginBatch, h]
      rfl

theorem bmAcknowledgeBatch_spec (g : String) (s b : Nat) (st : GSState)
    (hwb : st.wbatch = none) :
    (bmAcknowledgeBatch g s b st).2 = st ∨
    ∃ dels : List Key,
      (bmAcknowledgeBatch g s b st).2.store = applyWOps (dels.map WOp.del) st.store ∧
      (bmAcknowledgeBatch g s b st).2.wbatch = none ∧
      (bmAcknowledgeBatch g s b st).2.nextUlid = st.nextUlid := by
  simp only [bmAcknowledgeBatch]
  cases hget : sGet (.batchMetadataKey g s b) st with
  | none => exact Or.inl rfl
  | some v =>
    cases v with
    | sess s0 => exact Or.inl rfl
    | payload d => exact Or.inl rfl
    | corrupt => exact Or.inl rfl
    | meta m =>
      simp only [sBeginBatch, hwb]
      obtain ⟨lg, hfold⟩ := foldl_sDeleteFromBatch_wbatch
        (GenerateDataKeys g s b m.sequenceStart m.sequenceEnd)
        (sDeleteFromBatch (.batchMetadataKey g s b)
          { st with wbatch := some [], log := st.log ++ [Ev.beginBatchE] })
        [WOp.del (.batchMetadataKey g s b)] rfl
      rw [hfold]
      right
      refine ⟨.batchMetadataKey g s b ::
        GenerateDataKeys g s b m.sequenceStart m.sequenceEnd, ?_, rfl, rfl⟩
      rfl

theorem loadLoop_evolve_wf (g : String) (sid : Nat) (bids : List Nat)
    (acc : List BatchLoadResult) (st : GSState) (hwf : StoreWF st.store) :
    MarkEvolve st (loadLoop g sid bids acc st).2 ∧
    StoreWF (loadLoop g sid bids acc st).2.store := by
  induction bids generalizing acc st with
  | nil => exact ⟨MarkEvolve.refl _, hwf⟩
  | cons b rest ih =>
    simp only [loadLoop]
    split
    · exact ⟨MarkEvolve.refl _, hwf⟩
    · rename_i st1 heq
      have hev1 := MarkBatchAsLoaded_evolve g sid b st false st1 heq
      have hwf1 := MarkBatchAsLoaded_wf g sid b st false st1 heq hwf
      obtain ⟨hev2, hwf2⟩ := ih acc st1 hwf1
      exact ⟨hev1.trans _ _ _ hev2, hwf2⟩
    · rename_i st1 heq
      have hev1 := MarkBatchAsLoaded_evolve g sid b st true st1 heq
      have hwf1 := MarkBatchAsLoaded_wf g sid b st true st1 heq hwf
      split
      · exact ⟨hev1, hwf1⟩
      · obtain ⟨hev2, hwf2⟩ := ih acc st1 hwf1
        exact ⟨hev1.trans _ _ _ hev2, hwf2⟩
      · rename_i r hld
        obtain ⟨hev2, hwf2⟩ := ih (acc ++ [r]) st1 hwf1
        exact ⟨hev1.trans _ _ _ hev2, hwf2⟩

theorem LoadBatch_evolve_wf (g : String) (n : Nat) (st : GSState)
    (hwf : StoreWF st.store) :
    MarkEvolve st (LoadBatch g n st).2 ∧ StoreWF (LoadBatch g n st).2.store := by
  simp only [LoadBatch]
  split
  · exact ⟨MarkEvolve.refl _, hwf⟩
  · split
    · exact ⟨MarkEvolve.refl _, hwf⟩
    · split
      · exact ⟨MarkEvolve.refl _, hwf⟩
      · exact loadLoop_evolve_wf _ _ _ _ _ hwf

theorem LoadBatch_ok_spec (g : String) (n : Nat) (st : GSState)
    (rs : List BatchLoadResult) (st2 : GSState) (hwf : StoreWF st.store)
    (h : LoadBatch g n st = (.ok rs, st2)) :
    MarkEvolve st st2 ∧ StoreWF st2.store ∧
    ∃ sid0, ∀ r ∈ rs, LoopResultFact st st2 g sid0 r := by
  simp only [LoadBatch] at h
  split at h
  · cases h
    exact ⟨MarkEvolve.refl _, hwf, 0, by simp⟩
  · rename_i sid hsid
    split at h
    · simp [Prod.ext_iff] at h
    · rename_i bids hglb
      split at h
      · cases h
        exact ⟨MarkEvolve.refl _, hwf, 0, by simp⟩
      · obtain ⟨pairs, hbids, hsorted, hrecs⟩ :=
          GetLoadableBatches_ok g sid n st bids hwf hglb
        subst hbids
        have hpair : ∀ p ∈ pairs, ∀ m, MetaAt st g sid p.1 = some (.meta m) →
            m.sequenceStart = p.2 := by
          intro p hp m hm
          obtain ⟨m2, hm2, hstart, hpend⟩ := hrecs p hp
          rw [hm] at hm2
          cases hm2
          exact hstart
        obtain ⟨hev, hwf2, hsub, hfacts⟩ :=
          loadLoop_spec g sid pairs st hwf hpair rs st2 h
        exact ⟨hev, hwf2, sid, hfacts⟩

theorem TraceInv_load (R : List Nat) (st st2 : GSState)
    (rs : List BatchLoadResult) (g : String) (sid0 : Nat)
    (hI : TraceInv R st) (hev : MarkEvolve st st2) (hwf2 : StoreWF st2.store)
    (hfacts : ∀ r ∈ rs, LoopResultFact st st2 g sid0 r) :
    TraceInv (R ++ rs.map BatchLoadResult.batchId) st2 := by
  have hsome : ∀ g2 s2 b, (MetaAt st2 g2 s2 b).isSome = true →
      (MetaAt st g2 s2 b).isSome = true := by
    intro g2 s2 b h
    rcases hev.meta g2 s2 b with hsame | ⟨m, t, hm1, hm2⟩
    · rwa [hsame] at h
    · rw [hm1]
      rfl
  refine ⟨by rw [hev.wb]; exact hI.wb, hwf2, ?_, ?_, ?_, ?_⟩
  · intro g2 s2 b h
    rw [hev.ulid]
    exact hI.fresh g2 s2 b (hsome _ _ _ h)
  · intro g1 s1 g2 s2 b h1 h2
    exact hI.uniq g1 s1 g2 s2 b (hsome _ _ _ h1) (hsome _ _ _ h2)
  · intro b hb
    rw [hev.ulid]
    rcases List.mem_append.mp hb with hb | hb
    · exact hI.rlt b hb
    · obtain ⟨r, hr, rfl⟩ := List.mem_map.mp hb
      obtain ⟨m0, hm0, -, -, -, -, -, -, -⟩ := hfacts r hr
      exact hI.fresh g sid0 r.batchId (by rw [hm0]; rfl)
  · intro b hb g2 s2 m hm
    rcases List.mem_append.mp hb with hb | hb
    · rcases hev.meta g2 s2 b with hsame | ⟨m1, t, hm1, hm2⟩
      · rw [hsame] at hm
        exact hI.rloaded b hb g2 s2 m hm
      · rw [hm2] at hm
        cases hm
        rfl
    · obtain ⟨r, hr, rfl⟩ := List.mem_map.mp hb
      obtain ⟨m0, hm0, hnl, -, -, -, m1, hm1, hl1⟩ := hfacts r hr
      have hs2 : (MetaAt st g2 s2 r.batchId).isSome = true :=
        hsome _ _ _ (by rw [hm]; rfl)
      have hsg : (MetaAt st g sid0 r.batchId).isSome = true := by
        rw [hm0]
        rfl
      obtain ⟨e1, e2⟩ := hI.uniq g2 s2 g sid0 r.batchId hs2 hsg
      subst e1
      subst e2
      rw [hm] at hm1
      cases hm1
      exact hl1

@[simp] theorem CreateBatch_store (g : String) (s qs qe : Nat) (st : GSState) :
    (CreateBatch g s qs qe st).2.store =
      assocSet st.store (Key.batchMetadataKey g s st.nextUlid)
        (Val.meta ⟨st.nextUlid, qs, qe, .pending, st.clock, 0⟩) := rfl

theorem resave_tail_spec (g : String) (s b : Nat) (prs : List (Key × String))
    (stC : GSState) (h : stC.wbatch = none) :
    ∃ st2, sCommitBatch (bmAcknowledgeBatch g s b
        (putPairs prs (sBeginBatch stC).2)).2 = (true, st2) ∧
      st2.store = applyWOps (prs.map fun pr => WOp.put pr.1 (Val.payload pr.2))
        stC.store ∧
      st2.wbatch = none ∧ st2.nextUlid = stC.nextUlid := by
  have hbb : sBeginBatch stC = (true,
      { stC with wbatch := some [], log := stC.log ++ [Ev.beginBatchE] }) := by
    simp only [sBeginBatch, h]
  rw [hbb]
  obtain ⟨lg, hpp⟩ := putPairs_wbatch prs
    { stC with wbatch := some [], log := stC.log ++ [Ev.beginBatchE] } [] rfl
  rw [hpp]
  rw [bmAcknowledgeBatch_open g s b]
  case h => rfl
  simp only [sCommitBatch]
  refine ⟨_, rfl, ?_, rfl, rfl⟩
  simp

theorem TraceInv_markEvolve (R : List Nat) (st st2 : GSState)
    (hI : TraceInv R st) (hev : MarkEvolve st st2) (hwf2 : StoreWF st2.store) :
    TraceInv R st2 := by
  have h := TraceInv_load R st st2 [] "" 0 hI hev hwf2 (by simp)
  simpa using h

theorem TraceInv_step (R : List Nat) (st : GSState) (op : Op) (hI : TraceInv R st) :
    TraceInv (R ++ deliveredIds (step st op).2) (step st op).1 := by
  cases op with
  | initializeSession g =>
    have hd : deliveredIds (step st (.initializeSession g)).2 = [] := rfl
    rw [hd, List.append_nil]
    refine TraceInv_layers R st _ [(Key.sessionStateKey g st.nextUlid,
      Val.sess ⟨st.nextUlid, 0, st.clock, st.clock + 1, .active⟩)] hI rfl hI.wb ?_ ?_ ?_
    · show st.nextUlid ≤ st.nextUlid + 1
      omega
    · intro kv hkv
      rw [List.mem_singleton] at hkv
      subst hkv
      exact ⟨rfl, fun g2 s2 b2 hkey => by cases hkey⟩
    · simp [isMetaKey]
  | terminateSession g =>
    have hd : deliveredIds (step st (.terminateSession g)).2 = [] := rfl
    rw [hd, List.append_nil]
    show TraceInv R (TerminateSession g st)
    cases hss : st.smSession with
    | none =>
      have hT : TerminateSession g st =
          { st with groupSessions := assocErase st.groupSessions g,
                    groupSeqCounters := assocErase st.groupSeqCounters g } := by
        simp only [TerminateSession, smTerminateSession, hss]
      rw [hT]
      exact ⟨hI.wb, hI.wf, hI.fresh, hI.uniq, hI.rlt, hI.rloaded⟩
    | some sid =>
      cases hget : sGet (.sessionStateKey g sid) st with
      | none =>
        have hT : TerminateSession g st =
            { st with smSession := none, smGroup := "",
                      groupSessions := assocErase st.groupSessions g,
                      groupSeqCounters := assocErase st.groupSeqCounters g } := by
          simp only [TerminateSession, smTerminateSession, hss, hget]
        rw [hT]
        exact ⟨hI.wb, hI.wf, hI.fresh, hI.uniq, hI.rlt, hI.rloaded⟩
      | some v =>
        cases v with
        | sess s0 =>
          have hT : TerminateSession g st = { st with
              store := assocSet st.store (Key.sessionStateKey g sid)
                (Val.sess { s0 with status := .terminated, lastHeartbeat := st.clock }),
              log := st.log ++ [Ev.putE (Key.sessionStateKey g sid)
                (Val.sess { s0 with status := .terminated, lastHeartbeat := st.clock })],
              smSession := none, smGroup := "",
              groupSessions := assocErase st.groupSessions g,
              groupSeqCounters := assocErase st.groupSeqCounters g,
              clock := st.clock + 1 } := by
            simp only [TerminateSession, smTerminateSession, hss, hget, ulidNow, sPut]
          rw [hT]
          refine TraceInv_layers R st _ [(Key.sessionStateKey g sid,
            Val.sess { s0 with status := .terminated, lastHeartbeat := st.clock })]
            hI rfl hI.wb (Nat.le_refl _) ?_ ?_
          · intro kv hkv
            rw [List.mem_singleton] at hkv
            subst hkv
            exact ⟨rfl, fun g2 s2 b2 hkey => by cases hkey⟩
          · simp [isMetaKey]
        | meta m =>
          have hT : TerminateSession g st =
              { st with smSession := none, smGroup := "",
                        groupSessions := assocErase st.groupSessions g,
                        groupSeqCounters := assocErase st.groupSeqCounters g } := by
            simp only [TerminateSession, smTerminateSession, hss, hget]
          rw [hT]
          exact ⟨hI.wb, hI.wf, hI.fresh, hI.uniq, hI.rlt, hI.rloaded⟩
        | payload d =>
          have hT : TerminateSession g st =
              { st with smSession := none, smGroup := "",
                        groupSessions := assocErase st.groupSessions g,
                        groupSeqCounters := assocErase st.groupSeqCounters g } := by
            simp only [TerminateSession, smTerminateSession, hss, hget]
          rw [hT]
          exact ⟨hI.wb, hI.wf, hI.fresh, hI.uniq, hI.rlt, hI.rloaded⟩
        | corrupt =>
          have hT : TerminateSession g st =
              { st with smSession := none, smGroup := "",
                        groupSessions := assocErase st.groupSessions g,
                        groupSeqCounters := assocErase st.groupSeqCounters g } := by
            simp only [TerminateSession, smTerminateSession, hss, hget]
          rw [hT]
          exact ⟨hI.wb, hI.wf, hI.fresh, hI.uniq, hI.rlt, hI.rloaded⟩
  | save g d =>
    have hd : deliveredIds (step st (.save g d)).2 = [] := rfl
    rw [hd, List.append_nil]
    show TraceInv R (Save g d st).2
    cases hs : assocFind st.groupSessions g with
    | some sid =>
      have hS : Save g d st = saveWithSession g sid d st := by
        simp only [Save, GetOrCreateSession, hs]
      rw [hS]
      simp only [saveWithSession]
      cases hq : GetNextSequenceId g st with
      | mk q stQ =>
        have hqs : stQ.store = st.store := by
          have h2 := GetNextSequenceId_store g st
          rw [hq] at h2
          exact h2
        have hqw : stQ.wbatch = st.wbatch := by
          have h2 := GetNextSequenceId_wbatch g st
          rw [hq] at h2
          exact h2
        have hqu : stQ.nextUlid = st.nextUlid := by
          have h2 := GetNextSequenceId_nextUlid g st
          rw [hq] at h2
          exact h2
        dsimp only
        split
        · rename_i heq
          rw [CreateBatch_eq]
          dsimp only
          rw [saveFinish_eq]
          dsimp only
          refine TraceInv_layers R st _
            [(Key.batchMetadataKey g sid stQ.nextUlid,
              Val.meta ⟨stQ.nextUlid, q / stQ.defaultBatchSize * stQ.defaultBatchSize,
                q / stQ.defaultBatchSize * stQ.defaultBatchSize + stQ.defaultBatchSize - 1,
                .pending, stQ.clock, 0⟩),
             (Key.dataKey g sid stQ.nextUlid q, Val.payload d)] hI ?_ ?_ ?_ ?_ ?_
          · dsimp only [sPut_store]
            rw [hqs]
            rfl
          · show stQ.wbatch = none
            rw [hqw]
            exact hI.wb
          · show st.nextUlid ≤ stQ.nextUlid + 1
            omega
          · intro kv hkv
            rcases List.mem_cons.mp hkv with rfl | hkv
            · refine ⟨by simp [entryWF], ?_⟩
              intro g2 s2 b2 hkey
              injection hkey with e1 e2 e3
              subst e3
              refine ⟨by omega, ?_⟩
              show stQ.nextUlid < stQ.nextUlid + 1
              omega
            · rw [List.mem_singleton] at hkv
              subst hkv
              exact ⟨rfl, fun g2 s2 b2 hkey => by cases hkey⟩
          · simp [isMetaKey]
        · rename_i bid heq
          rw [saveFinish_eq]
          dsimp only
          refine TraceInv_layers R st _
            [(Key.dataKey g sid bid q, Val.payload d)] hI ?_ ?_ ?_ ?_ ?_
          · dsimp only [sPut_store]
            rw [hqs]
            rfl
          · show stQ.wbatch = none
            rw [hqw]
            exact hI.wb
          · show st.nextUlid ≤ stQ.nextUlid
            omega
          · intro kv hkv
            rw [List.mem_singleton] at hkv
            subst hkv
            exact ⟨rfl, fun g2 s2 b2 hkey => by cases hkey⟩
          · simp [isMetaKey]
    | none =>
      have hS : Save g d st = saveWithSession g st.nextUlid d (InitializeSession g st).2 := by
        rw [Save, GetOrCreateSession_of_none g st hs]
        rfl
      rw [hS]
      simp only [saveWithSession]
      cases hq : GetNextSequenceId g (InitializeSession g st).2 with
      | mk q stQ =>
        have hqs : stQ.store = assocSet st.store (Key.sessionStateKey g st.nextUlid)
            (Val.sess ⟨st.nextUlid, 0, st.clock, st.clock + 1, .active⟩) := by
          have h2 := GetNextSequenceId_store g (InitializeSession g st).2
          rw [hq] at h2
          exact h2
        have hqw : stQ.wbatch = st.wbatch := by
          have h2 := GetNextSequenceId_wbatch g (InitializeSession g st).2
          rw [hq] at h2
          exact h2
        have hqu : stQ.nextUlid = st.nextUlid + 1 := by
          have h2 := GetNextSequenceId_nextUlid g (InitializeSession g st).2
          rw [hq] at h2
          exact h2
        dsimp only
        split
        · rename_i heq
          rw [CreateBatch_eq]
          dsimp only
          rw [saveFinish_eq]
          dsimp only
          refine TraceInv_layers R st _
            [(Key.sessionStateKey g st.nextUlid,
              Val.sess ⟨st.nextUlid, 0, st.clock, st.clock + 1, .active⟩),
             (Key.batchMetadataKey g st.nextUlid stQ.nextUlid,
              Val.meta ⟨stQ.nextUlid, q / stQ.defaultBatchSize * stQ.defaultBatchSize,
                q / stQ.defaultBatchSize * stQ.defaultBatchSize + stQ.defaultBatchSize - 1,
                .pending, stQ.clock, 0⟩),
             (Key.dataKey g st.nextUlid stQ.nextUlid q, Val.payload d)] hI ?_ ?_ ?_ ?_ ?_
          · dsimp only [sPut_store]
            rw [hqs]
            rfl
          · show stQ.wbatch = none
            rw [hqw]
            exact hI.wb
          · show st.nextUlid ≤ stQ.nextUlid + 1
            omega
          · intro kv hkv
            rcases List.mem_cons.mp hkv with rfl | hkv
            · exact ⟨rfl, fun g2 s2 b2 hkey => by cases hkey⟩
            rcases List.mem_cons.mp hkv with rfl | hkv
            · refine ⟨by simp [entryWF], ?_⟩
              intro g2 s2 b2 hkey
              injection hkey with e1 e2 e3
              subst e3
              refine ⟨by omega, ?_⟩
              show stQ.nextUlid < stQ.nextUlid + 1
              omega
            · rw [List.mem_singleton] at hkv
              subst hkv
              exact ⟨rfl, fun g2 s2 b2 hkey => by cases hkey⟩
          · simp [isMetaKey]
        · rename_i bid heq
          rw [saveFinish_eq]
          dsimp only
          refine TraceInv_layers R st _
            [(Key.sessionStateKey g st.nextUlid,
              Val.sess ⟨st.nextUlid, 0, st.clock, st.clock + 1, .active⟩),
             (Key.dataKey g st.nextUlid bid q, Val.payload d)] hI ?_ ?_ ?_ ?_ ?_
          · dsimp only [sPut_store]
            rw [hqs]
            rfl
          · show stQ.wbatch = none
            rw [hqw]
            exact hI.wb
          · show st.nextUlid ≤ stQ.nextUlid
            omega
          · intro kv hkv
            rcases List.mem_cons.mp hkv with rfl | hkv
            · exact ⟨rfl, fun g2 s2 b2 hkey => by cases hkey⟩
            · rw [List.mem_singleton] at hkv
              subst hkv
              exact ⟨rfl, fun g2 s2 b2 hkey => by cases hkey⟩
          · simp [isMetaKey]
  | loadBatch g n =>
    simp only [step]
    split
    · rename_i rs st1 heq
      dsimp only
      obtain ⟨hev, hwf2, sid0, hfacts⟩ := LoadBatch_ok_spec g n st rs st1 hI.wf heq
      exact TraceInv_load R st st1 rs g sid0 hI hev hwf2 hfacts
    · rename_i e st1 heq
      dsimp only
      have hd : deliveredIds (Out.threw e) = [] := rfl
      rw [hd, List.append_nil]
      obtain ⟨hev, hwf2⟩ := LoadBatch_evolve_wf g n st hI.wf
      rw [heq] at hev hwf2
      exact TraceInv_markEvolve R st st1 hI hev hwf2
  | acknowledgeBatch g b =>
    have hd : deliveredIds (step st (.acknowledgeBatch g b)).2 = [] := rfl
    rw [hd, List.append_nil]
    show TraceInv R (AcknowledgeBatch g b st).2
    cases hs : assocFind st.groupSessions g with
    | none =>
      have hA : AcknowledgeBatch g b st = (false, st) := by
        simp only [AcknowledgeBatch, hs]
      rw [hA]
      exact hI
    | some sid =>
      have hA : AcknowledgeBatch g b st = bmAcknowledgeBatch g sid b st := by
        simp only [AcknowledgeBatch, hs]
      rw [hA]
      rcases bmAcknowledgeBatch_spec g sid b st hI.wb with h | ⟨dels, hstore, hwb2, hulid⟩
      · rw [h]
        exact hI
      · exact TraceInv_wops R st _ (dels.map WOp.del) hI hstore hwb2 hulid
          (by intro k v hkv; simp at hkv)
  | resaveBatch g b rem =>
    simp only [step]
    split
    · rename_i p heq
      dsimp only
      have hd : deliveredIds (Out.bool p.1) = [] := rfl
      rw [hd, List.append_nil]
      simp only [ResaveBatch] at heq
      split at heq
      · cases heq
        exact hI
      · rename_i sid hsid
        split at heq
        · cases heq
        · cases heq
          exact hI
        · rename_i m hmet
          split at heq
          · cases heq
            exact hI
          · split at heq
            · cases heq
              rcases bmAcknowledgeBatch_spec g sid b st hI.wb with h |
                ⟨dels, hstore, hwb2, hulid⟩
              · rw [h]
                exact hI
              · exact TraceInv_wops R st _ (dels.map WOp.del) hI hstore hwb2 hulid
                  (by intro k v hkv; simp at hkv)
            · cases hq : GetNextSequenceId g st with
              | mk ns stQ =>
                rw [hq] at heq
                have hqs : stQ.store = st.store := by
                  have h2 := GetNextSequenceId_store g st
                  rw [hq] at h2
                  exact h2
                have hqw : stQ.wbatch = st.wbatch := by
                  have h2 := GetNextSequenceId_wbatch g st
                  rw [hq] at h2
                  exact h2
                have hqu : stQ.nextUlid = st.nextUlid := by
                  have h2 := GetNextSequenceId_nextUlid g st
                  rw [hq] at h2
                  exact h2
                dsimp only at heq
                have hwbC : (CreateBatch g sid ns (ns + rem.length - 1) stQ).2.wbatch
                    = none := by
                  rw [CreateBatch_wbatch, hqw]
                  exact hI.wb
                have hbt : (sBeginBatch (CreateBatch g sid ns
                    (ns + rem.length - 1) stQ).2).1 = true := by
                  have hw2 : stQ.wbatch = none := by
                    rw [hqw]
                    exact hI.wb
                  simp [sBeginBatch, hw2]
                obtain ⟨st2, hcmt, hstore2, hwb2, hulid2⟩ :=
                  resave_tail_spec g sid b
                    ((GenerateDataKeys g sid
                      (CreateBatch g sid ns (ns + rem.length - 1) stQ).1 ns
                      (ns + rem.length - 1)).zip rem)
                    (CreateBatch g sid ns (ns + rem.length - 1) stQ).2 hwbC
                rw [if_pos hbt, hcmt] at heq
                injection heq with h2
                subst h2
                dsimp only
                have hIC : TraceInv R (CreateBatch g sid ns (ns + rem.length - 1) stQ).2 := by
                  refine TraceInv_layers R st _
                    [(Key.batchMetadataKey g sid stQ.nextUlid,
                      Val.meta ⟨stQ.nextUlid, ns, ns + rem.length - 1, .pending,
                        stQ.clock, 0⟩)] hI ?_ ?_ ?_ ?_ ?_
                  · rw [CreateBatch_store, hqs]
                    rfl
                  · show stQ.wbatch = none
                    rw [hqw]
                    exact hI.wb
                  · show st.nextUlid ≤ stQ.nextUlid + 1
                    omega
                  · intro kv hkv
                    rw [List.mem_singleton] at hkv
                    subst hkv
                    refine ⟨by simp [entryWF], ?_⟩
                    intro g2 s2 b2 hkey
                    injection hkey with e1 e2 e3
                    subst e3
                    refine ⟨by omega, ?_⟩
                    show stQ.nextUlid < stQ.nextUlid + 1
                    omega
                  · simp [isMetaKey]
                refine TraceInv_wops R _ st2 _ hIC hstore2 hwb2 hulid2 ?_
                intro k v hkv
                rw [List.mem_map] at hkv
                obtain ⟨pr, hpr, hkv2⟩ := hkv
                obtain ⟨k0, d0⟩ := pr
                injection hkv2 with e1 e2
                subst e1
                subst e2
                have hk0 : k0 ∈ GenerateDataKeys g sid
                    (CreateBatch g sid ns (ns + rem.length - 1) stQ).1 ns
                    (ns + rem.length - 1) := (List.of_mem_zip hpr).1
                simp only [GenerateDataKeys, List.mem_map] at hk0
                obtain ⟨x, hx, hk0⟩ := hk0
                subst hk0
                exact ⟨rfl, rfl⟩
    · rename_i e heq
      dsimp only
      have hd : deliveredIds (Out.threw e) = [] := rfl
      rw [hd, List.append_nil]
      exact hI
  | setBatchSize n =>
    have hd : deliveredIds (step st (.setBatchSize n)).2 = [] := rfl
    rw [hd, List.append_nil]
    exact ⟨hI.wb, hI.wf, hI.fresh, hI.uniq, hI.rlt, hI.rloaded⟩

theorem TraceInv_initState : TraceInv [] initState := by
  refine ⟨rfl, ⟨by simp [initState], ?_⟩, ?_, ?_, ?_, ?_⟩
  · intro kv hkv
    simp [initState] at hkv
  · intro g s b h
    simp [MetaAt, sGet, initState] at h
  · intro g s g2 s2 b h1 h2
    simp [MetaAt, sGet, initState] at h1
  · intro b hb
    cases hb
  · intro b hb
    cases hb

theorem stateAt_succ_of_lt (ops : List Op) (n : Nat) (h : n < ops.length) :
    stateAt ops (n + 1) = (step (stateAt ops n) ops[n]).1 := by
  simp only [stateAt]
  rw [List.take_succ, List.getElem?_eq_getElem h]
  dsimp only [Option.toList]
  rw [runFrom_append]
  rfl

theorem stateAt_succ_of_ge (ops : List Op) (n : Nat) (h : ops.length ≤ n) :
    stateAt ops (n + 1) = stateAt ops n := by
  simp only [stateAt]
  rw [List.take_of_length_le h, List.take_of_length_le (by omega)]

theorem outAt_of_lt (ops : List Op) (n : Nat) (h : n < ops.length) :
    outAt ops n = (step (stateAt ops n) ops[n]).2 := by
  simp only [outAt]
  rw [List.drop_eq_getElem_cons h]

theorem outAt_of_ge (ops : List Op) (n : Nat) (h : ops.length ≤ n) :
    outAt ops n = .unit := by
  simp only [outAt]
  rw [List.drop_eq_nil_of_le h]

theorem allDelivered_succ (ops : List Op) (n : Nat) :
    allDelivered ops (n + 1) = allDelivered ops n ++ deliveredIds (outAt ops n) := by
  simp only [allDelivered, List.range_succ, List.flatMap_append, List.flatMap_cons,
    List.flatMap_nil, List.append_nil]

theorem TraceInv_at (ops : List Op) : ∀ n, TraceInv (allDelivered ops n) (stateAt ops n) := by
  intro n
  induction n with
  | zero => exact TraceInv_initState
  | succ n ih =>
    rw [allDelivered_succ]
    by_cases h : n < ops.length
    · rw [stateAt_succ_of_lt ops n h, outAt_of_lt ops n h]
      exact TraceInv_step _ _ _ ih
    · rw [stateAt_succ_of_ge ops n (by omega), outAt_of_ge ops n (by omega)]
      have hdu : deliveredIds Out.unit = [] := rfl
      rw [hdu, List.append_nil]
      exact ih

theorem TraceInv_no_redeliver (R : List Nat) (st : GSState) (op : Op) (b : Nat)
    (hI : TraceInv R st) (hb : b ∈ R) : b ∉ deliveredIds (step st op).2 := by
  cases op with
  | loadBatch g n =>
    simp only [step]
    split
    · rename_i rs st1 heq
      dsimp only
      intro hmem
      have hmem2 : b ∈ rs.map BatchLoadResult.batchId := hmem
      obtain ⟨r, hr, hbid⟩ := List.mem_map.mp hmem2
      obtain ⟨hev, hwf2, sid0, hfacts⟩ := LoadBatch_ok_spec g n st rs st1 hI.wf heq
      obtain ⟨m0, hm0, hnl, -, -, -, -, -, -⟩ := hfacts r hr
      rw [hbid] at hm0
      exact hnl (hI.rloaded b hb g sid0 m0 hm0)
    · rename_i e st1 heq
      dsimp only
      intro hmem
      cases hmem
  | initializeSession g => intro hmem; cases hmem
  | terminateSession g => intro hmem; cases hmem
  | save g d => intro hmem; cases hmem
  | acknowledgeBatch g b2 => intro hmem; cases hmem
  | resaveBatch g b2 rem =>
    simp only [step]
    split
    · rename_i p heq
      dsimp only
      intro hmem
      cases hmem
    · rename_i e heq
      dsimp only
      intro hmem
      cases hmem
  | setBatchSize n => intro hmem; cases hmem

/-- Claim C2: across any sequence of public operations on one coordinator,
`LoadBatch` delivers each batch id at most once — once a batch id has
appeared in the `BatchLoadResult`s of a completed `LoadBatch` call (its
record flipped to LOADED by the idempotence gate of `MarkBatchAsLoaded`),
no later `LoadBatch` call returns that id again: later loads only deliver
ids whose record was still PENDING when the call started, delivered ids
keep every record LOADED, and freshly created batches always take ids
newer than everything delivered before. -/
theorem C2_at_most_once_load (ops : List Op) (i j : Nat) (b : Nat) (hij : i < j)
    (hi : b ∈ deliveredIds (outAt ops i)) :
    b ∉ deliveredIds (outAt ops j) := by
  have hmem : b ∈ allDelivered ops j :=
    List.mem_flatMap.mpr ⟨i, List.mem_range.mpr hij, hi⟩
  have hinv := TraceInv_at ops j
  by_cases h : j < ops.length
  · rw [outAt_of_lt ops j h]
    exact TraceInv_no_redeliver _ _ _ _ hinv hmem
  · rw [outAt_of_ge ops j (by omega)]
    intro hmem2
    cases hmem2

/-- Witness for claim C2 at `oneBatchTrace`: its first `LoadBatch`
(operation 2) delivers batch 1, and the theorem then rules batch 1 out of
the second `LoadBatch` (operation 3), whose actual output is indeed
empty. -/
theorem C2_at_most_once_load_witness :
    2 < 3 ∧ (1 : Nat) ∈ deliveredIds (outAt oneBatchTrace 2) ∧
      (1 : Nat) ∉ deliveredIds (outAt oneBatchTrace 3) :=
  ⟨by decide, by decide,
    C2_at_most_once_load oneBatchTrace 2 3 1 (by decide) (by decide)⟩

/-- Witness for claim C9's amended theorem: with batch size 2 fixed first
and three saves, the third save (sequence 2, `2 % 2 = 0`) creates a new
batch record. -/
theorem C9_window_boundary_fixed_batch_size_witness :
    0 < 2 ∧ 2 < (["a", "b", "c"] : List String).length ∧
      CreatesNewBatch (savesTrace 2 "g" ["a", "b", "c"]) 3 :=
  ⟨by decide, by decide,
    (C9_window_boundary_fixed_batch_size 2 "g" ["a", "b", "c"] 2 (by decide)
      (by decide)).mpr (by decide)⟩

end DuraStash
